import Mathlib

/-!
Verification development for the isochrone core (src/analysis/isochrone.py).

The Python code is embedded shallowly over the real numbers:
* numpy arrays become lists of reals, elementwise array arithmetic becomes
  zipWith / index-based sums;
* scipy.interpolate.interp1d becomes a piecewise-linear evaluator;
* fallible operations return Except PyErr;
* the mass-function evaluator (ugali.analysis.imf, not part of src/) is kept
  abstract as a structure of functions; its integrate precondition is modelled
  from the spec (section 4.1) where a claim depends on it.
Line numbers in comments refer to src/analysis/isochrone.py.
-/

namespace UgaliIMF

set_option maxRecDepth 8192

open scoped Classical

/-! ### Python / numpy / scipy primitives -/

/-- The Python builtin int(): truncation toward zero. -/
noncomputable def pyInt (x : ℝ) : ℤ := if 0 ≤ x then ⌊x⌋ else -⌊-x⌋

/-- Real-valued indicator of a proposition.  numpy boolean arrays occur as 0/1
factors in arithmetic expressions such as mass_pdf_array * (mag_cut & color_cut). -/
noncomputable def ind (p : Prop) : ℝ := if p then 1 else 0

/-- numpy.max of an array (junk value 0 on the empty list, where numpy raises). -/
def npMax (l : List ℝ) : ℝ := l.foldl max l.headI

/-- numpy.min of an array (junk value 0 on the empty list, where numpy raises). -/
def npMin (l : List ℝ) : ℝ := l.foldl min l.headI

/-- Boolean-mask selection a[mask].  The numpy versions contemporary with this
code convert the boolean mask via nonzero(), so a mask shorter than the array
selects from the leading elements only. -/
def maskFilter {α : Type} (mask : List Bool) (xs : List α) : List α :=
  ((mask.zip xs).filter (fun bx => bx.1)).map (fun bx => bx.2)

/-- numpy.linspace with endpoint=True: num evenly spaced points from start to
stop; num = 1 yields just the start point. -/
noncomputable def linspace (start stop : ℝ) (num : ℕ) : List ℝ :=
  if num = 1 then [start]
  else (List.range num).map (fun i : ℕ => start + (i : ℝ) * (stop - start) / ((num : ℝ) - 1))

/-- Piecewise-linear evaluation over a list of (x, y) knots with ascending x,
as scipy.interpolate.interp1d.  Out-of-domain evaluation returns the junk
value 0 (the library raises there; no modelled call site evaluates outside
the domain). -/
noncomputable def interpPts : List (ℝ × ℝ) → ℝ → ℝ
  | [], _ => 0
  | [_], _ => 0
  | (x0, y0) :: (x1, y1) :: rest, x =>
    if x < x0 then 0
    else if x ≤ x1 then y0 + (x - x0) * (y1 - y0) / (x1 - x0)
    else interpPts ((x1, y1) :: rest) x

/-- interp1d(xs, ys) evaluated at x. -/
noncomputable def interp1d (xs ys : List ℝ) (x : ℝ) : ℝ := interpPts (xs.zip ys) x

/-- interp1d with bounds_error=False and a constant fill_value. -/
noncomputable def interp1dFill (xs ys : List ℝ) (fill : ℝ) (x : ℝ) : ℝ :=
  if x < xs.getD 0 0 ∨ xs.getD (xs.length - 1) 0 < x then fill
  else interpPts (xs.zip ys) x

/-- numpy.cumsum. -/
def cumsum (l : List ℝ) : List ℝ := (l.scanl (fun a b => a + b) 0).tail

/-- Failure modes surfaced by the modelled methods. -/
inductive PyErr
  | insufficientData  -- scipy interp1d construction with fewer than 2 data points
  | imfDomain         -- modelled-from-spec precondition of IMF.integrate (0 < lo < hi)
  | valueError        -- tuple unpacking arity mismatch
  | systemExit        -- sys.exit(...)
  | indexError        -- sequence index out of range
  | zeroDivision      -- Python float division by zero
  deriving DecidableEq

/-- Holds the stated property of the payload whenever the computation returned
one; trivially true on an error. -/
def okP {α : Type} (P : α → Prop) : Except PyErr α → Prop
  | .ok a => P a
  | .error _ => True

/-! ### Mass-function evaluator (consumed contract, spec section 4.1) -/

/-- Mass-function evaluator.  ugali.analysis.imf is not under src/, so only the
interface consumed by the isochrone core is modelled: a linear-mass density, a
log-mass density, and a definite integral over initial mass. -/
structure IMF where
  pdf : ℝ → ℝ
  pdfLog : ℝ → ℝ
  integrate : ℝ → ℝ → ℝ

/-! ### Selection-function collaborator (external mask object) -/

/-- Selection-function data consumed by observableFraction and
normalizeWithMask: per-interior-pixel detection-limit magnitudes in each band
(aligned sparse lists), global magnitude/color bin edges, and the regular-grid
variant (mask.mask_1.mask etc., indexed [bin_y][bin_x]) with its bin centers. -/
structure Mask where
  mask_1_sparse : List ℝ
  mask_2_sparse : List ℝ
  bins_mag : List ℝ
  bins_color : List ℝ
  mask_1_grid : List (List ℝ)
  mask_2_grid : List (List ℝ)
  centers_x : List ℝ
  centers_y : List ℝ

/-! ### Single-population track (class Isochrone) -/

/-- One tabulated evolutionary track plus the configuration scalars read in
__init__ (lines 20-59).  Arrays are the already-parsed aligned columns. -/
structure Isochrone where
  mass_init : List ℝ
  mass_act : List ℝ
  luminosity : List ℝ
  mag_1 : List ℝ
  mag_2 : List ℝ
  stage : List String
  imf : IMF
  horizontal_branch_dispersion : ℝ
  horizontal_branch_spacing : ℝ
  horizontal_branch_stage : String
  band_1_detection : Bool

/-- Line 37: mass_init_upper_bound = numpy.max(self.mass_init), over the whole
table, independent of any tail truncation. -/
def Isochrone.mass_init_upper_bound (t : Isochrone) : ℝ := npMax t.mass_init

/-- Lines 38-41: position of the first entry whose stage is 'LTP', else the
array length (List.findIdx already returns the length when nothing matches). -/
def Isochrone.index (t : Isochrone) : ℕ := t.stage.findIdx (fun s => s == "LTP")

/-- Lines 44-47: the detection-band magnitude column. -/
def Isochrone.mag (t : Isochrone) : List ℝ := if t.band_1_detection then t.mag_1 else t.mag_2

/-- Line 48: color = mag_1 - mag_2 (elementwise). -/
def Isochrone.color (t : Isochrone) : List ℝ :=
  List.zipWith (fun a b => a - b) t.mag_1 t.mag_2

/-! #### sample (lines 215-283) -/

/-- Lines 220-232: working sub-array of mass_init per full_data_range. -/
def Isochrone.workingMassInit (t : Isochrone) (full_data_range : Bool) : List ℝ :=
  if full_data_range then t.mass_init else t.mass_init.take t.index

/-- Working sub-array of mass_act. -/
def Isochrone.workingMassAct (t : Isochrone) (full_data_range : Bool) : List ℝ :=
  if full_data_range then t.mass_act else t.mass_act.take t.index

/-- Working sub-array of mag_1. -/
def Isochrone.workingMag1 (t : Isochrone) (full_data_range : Bool) : List ℝ :=
  if full_data_range then t.mag_1 else t.mag_1.take t.index

/-- Working sub-array of mag_2. -/
def Isochrone.workingMag2 (t : Isochrone) (full_data_range : Bool) : List ℝ :=
  if full_data_range then t.mag_2 else t.mag_2.take t.index

/-- Lines 240-241: interpolate array-index position to initial mass and
evaluate on mass_steps+1 evenly spaced index positions. -/
noncomputable def Isochrone.massArray (t : Isochrone) (mass_steps : ℕ) (fdr : Bool) : List ℝ :=
  (linspace 0 (((t.workingMassInit fdr).length : ℝ) - 1) (mass_steps + 1)).map
    (interp1d ((List.range (t.workingMassInit fdr).length).map (fun i : ℕ => (i : ℝ)))
      (t.workingMassInit fdr))

/-- Line 242: d_mass = mass_array[1:] - mass_array[0:-1]. -/
noncomputable def Isochrone.dMass (t : Isochrone) (mass_steps : ℕ) (fdr : Bool) : List ℝ :=
  List.zipWith (fun a b => a - b) (t.massArray mass_steps fdr).tail
    (t.massArray mass_steps fdr).dropLast

/-- Line 243: representative mass per bin, the geometric mean of its edges. -/
noncomputable def Isochrone.massInitArray (t : Isochrone) (mass_steps : ℕ) (fdr : Bool) : List ℝ :=
  List.zipWith (fun a b => Real.sqrt (a * b)) (t.massArray mass_steps fdr).tail
    (t.massArray mass_steps fdr).dropLast

/-- Line 244: raw bin weight = bin width times linear-mode IMF density at the
representative mass. -/
noncomputable def Isochrone.massPdfArray (t : Isochrone) (mass_steps : ℕ) (fdr : Bool) : List ℝ :=
  List.zipWith (fun a b => a * b) (t.dMass mass_steps fdr)
    ((t.massInitArray mass_steps fdr).map t.imf.pdf)

/-- Line 245. -/
noncomputable def Isochrone.massActArray (t : Isochrone) (mass_steps : ℕ) (fdr : Bool) : List ℝ :=
  (t.massInitArray mass_steps fdr).map
    (interp1d (t.workingMassInit fdr) (t.workingMassAct fdr))

/-- Line 246. -/
noncomputable def Isochrone.mag1Array (t : Isochrone) (mass_steps : ℕ) (fdr : Bool) : List ℝ :=
  (t.massInitArray mass_steps fdr).map
    (interp1d (t.workingMassInit fdr) (t.workingMag1 fdr))

/-- Line 247. -/
noncomputable def Isochrone.mag2Array (t : Isochrone) (mass_steps : ℕ) (fdr : Bool) : List ℝ :=
  (t.massInitArray mass_steps fdr).map
    (interp1d (t.workingMassInit fdr) (t.workingMag2 fdr))

/-- Line 250: horizontal-branch dispersion is applied when the configured
dispersion exceeds 1e-3 mag and some tabulated point carries the configured
stage label (tested over the full stage column). -/
def Isochrone.hbActive (t : Isochrone) : Prop :=
  1 / 1000 < t.horizontal_branch_dispersion ∧
    t.stage.any (fun s => s == t.horizontal_branch_stage) = true

/-- Boolean mask self.stage == self.horizontal_branch_stage. -/
def Isochrone.hbStageMask (t : Isochrone) : List Bool :=
  t.stage.map (fun s => s == t.horizontal_branch_stage)

/-- Line 251. -/
def Isochrone.hbMassMin (t : Isochrone) : ℝ := npMin (maskFilter t.hbStageMask t.mass_init)

/-- Line 252. -/
def Isochrone.hbMassMax (t : Isochrone) : ℝ := npMax (maskFilter t.hbStageMask t.mass_init)

/-- Lines 253-254: resampled bins strictly inside the tabulated HB mass span. -/
noncomputable def Isochrone.hbCut (t : Isochrone) (mass_steps : ℕ) (fdr : Bool) : List Bool :=
  (t.massInitArray mass_steps fdr).map
    (fun m => decide (t.hbMassMin < m) && decide (m < t.hbMassMax))

/-- Lines 255-257: n = int(2*dispersion/spacing), incremented once when even. -/
noncomputable def hbN (d s : ℝ) : ℤ :=
  if pyInt (2 * d / s) % 2 ≠ 1 then pyInt (2 * d / s) + 1 else pyInt (2 * d / s)

/-- Line 258: the offset grid linspace(-dispersion, dispersion, n). -/
noncomputable def hbOffsets (d s : ℝ) : List ℝ := linspace (-d) d (hbN d s).toNat

/-- Line 260: HB-bin weights divided by float(n), other weights unchanged. -/
noncomputable def hbPdfDiv (cut : List Bool) (pdf : List ℝ) (n : ℤ) : List ℝ :=
  List.zipWith (fun b w => if b then w / (n : ℝ) else w) cut pdf

/-- Lines 262-264: the loop skips the offset equal to 0. -/
noncomputable def nonzeroOffsets (d s : ℝ) : List ℝ :=
  (hbOffsets d s).filter (fun x => decide (x ≠ 0))

/-- Output tuple of sample(): five aligned arrays. -/
structure Sampled where
  mass_init_array : List ℝ
  mass_pdf_array : List ℝ
  mass_act_array : List ℝ
  mag_1_array : List ℝ
  mag_2_array : List ℝ

/-- The Python 5-tuple view of the result. -/
def Sampled.toList (s : Sampled) : List (List ℝ) :=
  [s.mass_init_array, s.mass_pdf_array, s.mass_act_array, s.mag_1_array, s.mag_2_array]

/-- Lines 238-270: resampling plus horizontal-branch dispersion, before the
final normalization.  In the append loop (lines 262-270) the boolean mask cut
retains the pre-append length, and old-numpy boolean indexing therefore always
selects from the unchanged original prefix, so every iteration appends the same
selection; the weights were already divided at line 260, the magnitudes are
shifted by the offset. -/
noncomputable def Isochrone.sampleRaw (t : Isochrone) (mass_steps : ℕ) (fdr : Bool) : Sampled :=
  let mia := t.massInitArray mass_steps fdr
  let mpa := t.massPdfArray mass_steps fdr
  let maa := t.massActArray mass_steps fdr
  let m1 := t.mag1Array mass_steps fdr
  let m2 := t.mag2Array mass_steps fdr
  if t.hbActive then
    let cut := t.hbCut mass_steps fdr
    let n := hbN t.horizontal_branch_dispersion t.horizontal_branch_spacing
    let offs := nonzeroOffsets t.horizontal_branch_dispersion t.horizontal_branch_spacing
    let mpaD := hbPdfDiv cut mpa n
    { mass_init_array := mia ++ (offs.map (fun _ => maskFilter cut mia)).flatten
      mass_pdf_array := mpaD ++ (offs.map (fun _ => maskFilter cut mpaD)).flatten
      mass_act_array := maa ++ (offs.map (fun _ => maskFilter cut maa)).flatten
      mag_1_array := m1 ++ (offs.map (fun d => (maskFilter cut m1).map (fun x => x + d))).flatten
      mag_2_array := m2 ++ (offs.map (fun d => (maskFilter cut m2).map (fun x => x + d))).flatten }
  else ⟨mia, mpa, maa, m1, m2⟩

/-- Isochrone.sample (lines 215-283, mode='data').  Error behavior: interp1d
construction over the working arrays (lines 234-240) raises when they hold
fewer than 2 points; the final normalization (line 281) divides every weight by
imf.integrate(mass_min, mass_init_upper_bound), whose modelled-from-spec
precondition (section 4.1: lo < hi, both positive) fails as a domain error. -/
noncomputable def Isochrone.sample (t : Isochrone) (mass_steps : ℕ) (mass_min : ℝ)
    (full_data_range : Bool) : Except PyErr Sampled :=
  if (t.workingMassInit full_data_range).length < 2 then .error .insufficientData
  else if 0 < mass_min ∧ mass_min < t.mass_init_upper_bound then
    .ok { t.sampleRaw mass_steps full_data_range with
          mass_pdf_array := (t.sampleRaw mass_steps full_data_range).mass_pdf_array.map
            (fun w => w / t.imf.integrate mass_min t.mass_init_upper_bound) }
  else .error .imfDomain

/-! #### stellarMass (lines 285-302) -/

/-- log10. -/
noncomputable def log10 (x : ℝ) : ℝ := Real.logb 10 x

/-- Lines 285-302: Riemann sum in log mass of interpolated actual mass times
the log-mode IMF density; the actual-mass interpolant gains the synthetic
anchor (mass_min, mass_min) when mass_min lies below the tabulated minimum. -/
noncomputable def Isochrone.stellarMass (t : Isochrone) (mass_min : ℝ) (steps : ℕ) : ℝ :=
  let mass_max := t.mass_init_upper_bound
  let d_log_mass := (log10 mass_max - log10 mass_min) / (steps : ℝ)
  let log_mass := linspace (log10 mass_min) (log10 mass_max) steps
  let mass := log_mass.map (fun x => Real.rpow 10 x)
  let xs := if mass_min < npMin t.mass_init then mass_min :: t.mass_init else t.mass_init
  let ys := if mass_min < npMin t.mass_init then mass_min :: t.mass_act else t.mass_act
  let mass_act := mass.map (interp1d xs ys)
  (List.zipWith (fun ma m => ma * d_log_mass * t.imf.pdfLog m) mass_act mass).sum

/-! #### observableFraction (lines 378-420) -/

/-- Per-pixel weighted sum (lines 402-419): the sample-level prefilter
(detection-band magnitude inside the global magnitude window, color inside the
global color window) zeroes a weight once; the per-pixel factor requires both
shifted magnitudes brighter than that pixel's per-band limits. -/
noncomputable def obsPixelVal (pdf magdet mag1 mag2 : List ℝ)
    (mlo mhi clo chi dm m1 m2 : ℝ) : ℝ :=
  ∑ i ∈ Finset.range pdf.length,
    pdf.getD i 0 *
      ind (magdet.getD i 0 + dm > mlo ∧ magdet.getD i 0 + dm < mhi ∧
           mag1.getD i 0 - mag2.getD i 0 > clo ∧ mag1.getD i 0 - mag2.getD i 0 < chi) *
      ind (mag1.getD i 0 + dm < m1 ∧ mag2.getD i 0 + dm < m2)

/-- Lines 378-420: sample with the pre-tail range and the given mass_min
(mass_steps takes sample's default 1000), then one value per interior pixel. -/
noncomputable def Isochrone.observableFraction (t : Isochrone) (mask : Mask)
    (distance_modulus mass_min : ℝ) : Except PyErr (List ℝ) := do
  let s ← t.sample 1000 mass_min false
  let magdet := if t.band_1_detection then s.mag_1_array else s.mag_2_array
  pure ((mask.mask_1_sparse.zip mask.mask_2_sparse).map (fun mm =>
    obsPixelVal s.mass_pdf_array magdet s.mag_1_array s.mag_2_array
      (mask.bins_mag.getD 0 0) (mask.bins_mag.getD (mask.bins_mag.length - 1) 0)
      (mask.bins_color.getD 0 0) (mask.bins_color.getD (mask.bins_color.length - 1) 0)
      distance_modulus mm.1 mm.2))

/-! #### normalizeWithMask (lines 422-477) -/

/-- Python tuple unpacking: a 5-element tuple assigned to 4 targets raises
ValueError. -/
def unpack4 (l : List (List ℝ)) : Except PyErr (List ℝ × List ℝ × List ℝ × List ℝ) :=
  match l with
  | [a, b, c, d] => .ok (a, b, c, d)
  | _ => .error .valueError

/-- Lines 443-449, the explicit grid loop as it would execute with four arrays
bound.  Note line 446 of the source assigns mag_2_mask from mask.mask_1 as
well, so the band-2 comparison also uses the band-1 depth. -/
noncomputable def normalizeGrid (pdf mag1 mag2 : List ℝ) (mask : Mask)
    (dm fraction : ℝ) : List (List ℝ) :=
  (List.range mask.centers_y.length).map (fun iy =>
    (List.range mask.centers_x.length).map (fun ix =>
      let mag_1_mask := (mask.mask_1_grid.getD iy []).getD ix 0
      let mag_2_mask := (mask.mask_1_grid.getD iy []).getD ix 0
      fraction * ∑ i ∈ Finset.range pdf.length,
        pdf.getD i 0 * ind (mag1.getD i 0 + dm < mag_1_mask) *
          ind (mag2.getD i 0 + dm < mag_2_mask)))

/-- Lines 422-477 (kernel=None path).  The first statement of the method
unpacks sample()'s 5-tuple into four names (line 426), so everything after it
is dead code; it is modelled anyway, to its letter (the scalar correction
fraction when mass_min is below the sampled range, else truncation to
mass > mass_min, then the grid loop). -/
noncomputable def Isochrone.normalizeWithMask (t : Isochrone) (mask : Mask)
    (distance_modulus : ℝ) (mass_steps : ℕ) (mass_min : ℝ) :
    Except PyErr (List (List ℝ)) := do
  let s ← t.sample mass_steps (1 / 10) false
  let (mass_center_array, mass_pdf_array, mag_1_array, mag_2_array) ← unpack4 s.toList
  if mass_min < mass_center_array.getD 0 0 then
    let last := mass_center_array.getD (mass_center_array.length - 1) 0
    let fraction := t.imf.integrate (mass_center_array.getD 0 0) last /
      t.imf.integrate mass_min last
    pure (normalizeGrid mass_pdf_array mag_1_array mag_2_array mask distance_modulus fraction)
  else
    let cutmask := mass_center_array.map (fun m => decide (mass_min < m))
    pure (normalizeGrid (maskFilter cutmask mass_pdf_array)
      (maskFilter cutmask mag_1_array) (maskFilter cutmask mag_2_array)
      mask distance_modulus 1)

/-! #### _setHorizontalBranch (lines 532-546) -/

/-- Envelope data built by _setHorizontalBranch. -/
structure HBEnvelope where
  lower : ℝ → ℝ
  upper : ℝ → ℝ
  density : ℝ

/-- Non-decreasing list; numpy.any(numpy.sort(x) != x) is exactly its
negation, since a stable ascending sort fixes precisely the already
non-decreasing arrays. -/
def sortedLE (l : List ℝ) : Prop := l.Chain' (fun a b => a ≤ b)

/-- Lines 532-546.  When the precondition (at least 2 labelled points with
sorted colors) fails, the method only prints WARNING and continues; the
returned flag records whether the warning was printed.  Construction still
fails afterwards in the fewer-than-2-points case, when interp1d refuses the
data (line 542); with unsorted colors the envelope is built regardless. -/
noncomputable def Isochrone.setHorizontalBranch (t : Isochrone) (hb_stage : String)
    (pad : ℝ) : Except PyErr (HBEnvelope × Bool) :=
  let cutmask := t.stage.map (fun s => s == hb_stage)
  let colors := maskFilter cutmask t.color
  let mags := maskFilter cutmask t.mag
  let masses := maskFilter cutmask t.mass_init
  let warned : Bool := decide (colors.length < 2 ∨ ¬ sortedLE colors)
  if colors.length < 2 then .error .insufficientData
  else .ok
    ({ lower := interp1dFill colors (mags.map (fun m => m - pad)) 0
       upper := interp1dFill colors (mags.map (fun m => m + pad)) 0
       density := t.imf.integrate (masses.getD 0 0) (masses.getD (masses.length - 1) 0) /
         (2 * pad * (colors.getD (colors.length - 1) 0 - colors.getD 0 0)) },
     warned)

/-! ### Composite (mixture) track (class CompositeIsochrone, lines 567-655) -/

/-- Weighted ensemble of tracks. -/
structure CompositeIsochrone where
  isochrones : List Isochrone
  weights : List ℝ

/-- __init__ (lines 569-578).  self.config = self.isochrones[0].config raises
IndexError on an empty list; a length mismatch calls sys.exit; then the weight
array is renormalized with numpy's in-place /=, mutating the caller's array
object.  The second component of the result is the final contents of that
caller-supplied array. -/
noncomputable def CompositeIsochrone.init (isochrones : List Isochrone)
    (weights : List ℝ) : Except PyErr (CompositeIsochrone × List ℝ) :=
  if isochrones.isEmpty then .error .indexError
  else if isochrones.length ≠ weights.length then .error .systemExit
  else
    let w := weights.map (fun x => x / weights.sum)
    .ok (⟨isochrones, w⟩, w)

/-- Lines 580-605: concatenate the members' samples, scaling each member's
weights by its mixture weight; a member failure propagates in order. -/
noncomputable def CompositeIsochrone.sample (c : CompositeIsochrone) (mass_steps : ℕ)
    (mass_min : ℝ) (full_data_range : Bool) : Except PyErr Sampled := do
  let parts ← (c.weights.zip c.isochrones).mapM (fun wi => do
    let s ← wi.2.sample mass_steps mass_min full_data_range
    pure { s with mass_pdf_array := s.mass_pdf_array.map (fun x => wi.1 * x) })
  pure { mass_init_array := (parts.map (fun p => p.mass_init_array)).flatten
         mass_pdf_array := (parts.map (fun p => p.mass_pdf_array)).flatten
         mass_act_array := (parts.map (fun p => p.mass_act_array)).flatten
         mag_1_array := (parts.map (fun p => p.mag_1_array)).flatten
         mag_2_array := (parts.map (fun p => p.mag_2_array)).flatten }

/-- Lines 607-614 (members called with their defaults mass_min=0.1,
steps=10000). -/
noncomputable def CompositeIsochrone.stellarMass (c : CompositeIsochrone) : ℝ :=
  ((c.weights.zip c.isochrones).map (fun wi => wi.1 * wi.2.stellarMass (1 / 10) 10000)).sum

/-- simulate (lines 635-646).  numpy.random.rand is modelled by an explicit
draw source rands; the draw count is the Python int() truncation of the float
star count (the numpy of that era accepted float sizes).  Python raises
ZeroDivisionError when the mean stellar mass is zero.  The inverse-CDF
interpolant has bounds_error=False, fill_value=-1; draws mapping to the
sentinel are discarded, surviving indices pick magnitudes (getD with junk
default 0 for the out-of-range accesses Python would fault on). -/
noncomputable def CompositeIsochrone.simulate (c : CompositeIsochrone)
    (stellar_mass distance_modulus : ℝ) (rands : ℕ → ℝ) :
    Except PyErr (List ℝ × List ℝ) :=
  if c.stellarMass = 0 then .error .zeroDivision
  else
    let n := stellar_mass / c.stellarMass
    do
      let s ← c.sample 1000 (1 / 10) false
      let cdf := 0 :: cumsum s.mass_pdf_array
      let f := interp1dFill cdf ((List.range cdf.length).map (fun i : ℕ => (i : ℝ))) (-1)
      let draws := (List.range (pyInt n).toNat).map rands
      let idx := (draws.map (fun u => ⌊f u⌋)).filter (fun i => decide (0 ≤ i))
      pure (idx.map (fun i => s.mag_1_array.getD i.toNat 0 + distance_modulus),
            idx.map (fun i => s.mag_2_array.getD i.toNat 0 + distance_modulus))

/-! ### Derived predicates shared by the theorems -/

/-- The five returned sequences have a common length. -/
def Sampled.lengthsEq (s : Sampled) : Prop :=
  s.mass_pdf_array.length = s.mass_init_array.length ∧
  s.mass_act_array.length = s.mass_init_array.length ∧
  s.mag_1_array.length = s.mass_init_array.length ∧
  s.mag_2_array.length = s.mass_init_array.length

/-- Sum of the returned weights (0 on an error outcome). -/
noncomputable def okWeightSum : Except PyErr Sampled → ℝ
  | .ok s => s.mass_pdf_array.sum
  | .error _ => 0

/-- Warning flag of a completed envelope construction (false on error). -/
def okWarn : Except PyErr (HBEnvelope × Bool) → Bool
  | .ok p => p.2
  | .error _ => false

/-! ### Concrete instances used by the theorems -/

/-- Toy mass-function evaluator consistent with constant density 1: the
integral over an interval is its length. -/
def exIMF : IMF := ⟨fun _ => 1, fun _ => 1, fun lo hi => hi - lo⟩

/-- Four-row track whose last two rows are the post-AGB tail (stage LTP);
horizontal-branch dispersion switched off. -/
def exTrackTail : Isochrone :=
  { mass_init := [1, 4, 9, 16], mass_act := [1, 4, 9, 16], luminosity := [1, 1, 1, 1]
    mag_1 := [0, 3, 5, 6], mag_2 := [0, 3, 5, 6]
    stage := ["RGB", "RGB", "LTP", "LTP"], imf := exIMF
    horizontal_branch_dispersion := 0, horizontal_branch_spacing := 1
    horizontal_branch_stage := "BHeb", band_1_detection := true }

/-- Two-row track without tail or horizontal-branch label. -/
def exTrackPlain : Isochrone :=
  { mass_init := [1, 4], mass_act := [1, 4], luminosity := [1, 1]
    mag_1 := [0, 3], mag_2 := [0, 3]
    stage := ["RGB", "RGB"], imf := exIMF
    horizontal_branch_dispersion := 0, horizontal_branch_spacing := 1
    horizontal_branch_stage := "BHeb", band_1_detection := true }

/-- Two-row all-horizontal-branch track whose configured dispersion (1/100) is
positive but below the configured spacing (1/10), so n = 1. -/
noncomputable def exTrackHB : Isochrone :=
  { exTrackPlain with
      stage := ["BHeb", "BHeb"]
      horizontal_branch_dispersion := 1 / 100
      horizontal_branch_spacing := 1 / 10 }

/-- The same track with dispersion 0: the undispersed reference. -/
def exTrackHB0 : Isochrone := { exTrackPlain with stage := ["BHeb", "BHeb"] }

/-- One-row track: too short for any interpolant. -/
def exTrackOne : Isochrone :=
  { mass_init := [5], mass_act := [5], luminosity := [1]
    mag_1 := [0], mag_2 := [0]
    stage := ["RGB"], imf := exIMF
    horizontal_branch_dispersion := 0, horizontal_branch_spacing := 1
    horizontal_branch_stage := "BHeb", band_1_detection := true }

/-- Two-row track whose horizontal-branch colors decrease (3 then 1). -/
def exTrackDesc : Isochrone :=
  { mass_init := [1, 2], mass_act := [1, 2], luminosity := [1, 1]
    mag_1 := [3, 1], mag_2 := [0, 0]
    stage := ["BHeb", "BHeb"], imf := exIMF
    horizontal_branch_dispersion := 0, horizontal_branch_spacing := 1
    horizontal_branch_stage := "BHeb", band_1_detection := true }

/-- One interior pixel with a very deep detection limit; the global magnitude
window starts at 5, brighter than every absolute magnitude of exTrackPlain. -/
def exMask : Mask :=
  { mask_1_sparse := [1000], mask_2_sparse := [1000]
    bins_mag := [5, 100], bins_color := [-1, 1]
    mask_1_grid := [[1000]], mask_2_grid := [[1000]]
    centers_x := [0], centers_y := [0] }

/-! ### Lemmas about the primitives -/

theorem maskFilter_nil {α : Type} (m : List Bool) : maskFilter m ([] : List α) = [] := by
  cases m <;> rfl

theorem maskFilter_cons {α : Type} (b : Bool) (m : List Bool) (x : α) (xs : List α) :
    maskFilter (b :: m) (x :: xs) =
      if b then x :: maskFilter m xs else maskFilter m xs := by
  cases b <;> simp [maskFilter, List.filter_cons]

theorem maskFilter_length_eq {α β : Type} (m : List Bool) :
    ∀ {xs : List α} {ys : List β}, xs.length = ys.length →
      (maskFilter m xs).length = (maskFilter m ys).length := by
  induction m with
  | nil => intro xs ys _; rfl
  | cons b m ih =>
    intro xs ys h
    cases xs with
    | nil =>
      cases ys with
      | nil => rfl
      | cons y ys => simp at h
    | cons x xs =>
      cases ys with
      | nil => simp at h
      | cons y ys =>
        simp only [List.length_cons, Nat.add_right_cancel_iff] at h
        cases b <;> simp [maskFilter_cons, ih h]

theorem linspace_length (a b : ℝ) (n : ℕ) : (linspace a b n).length = n := by
  unfold linspace
  split
  · next h => simp [h]
  · simp

theorem linspace_one (a b : ℝ) : linspace a b 1 = [a] := by
  unfold linspace
  simp

theorem linspace_getD (a b : ℝ) {n : ℕ} (hn : n ≠ 1) {i : ℕ} (h : i < n) :
    (linspace a b n).getD i 0 = a + i * (b - a) / ((n : ℝ) - 1) := by
  unfold linspace
  rw [if_neg hn, List.getD_eq_getElem _ _ (by simpa using h)]
  simp

theorem mem_linspace_bounds {a b x : ℝ} {n : ℕ} (hab : a ≤ b) (hx : x ∈ linspace a b n) :
    a ≤ x ∧ x ≤ b := by
  unfold linspace at hx
  split at hx
  · simp only [List.mem_singleton] at hx
    subst hx
    exact ⟨le_rfl, hab⟩
  · next hn =>
    rcases List.mem_map.mp hx with ⟨i, hi, rfl⟩
    have hiN : i < n := List.mem_range.mp hi
    have hn0 : n ≠ 0 := by rintro rfl; omega
    have hn2 : 2 ≤ n := by omega
    have hpos : (0 : ℝ) < (n : ℝ) - 1 := by
      have : (2 : ℝ) ≤ (n : ℝ) := by exact_mod_cast hn2
      linarith
    have hi1 : (i : ℝ) ≤ (n : ℝ) - 1 := by
      have hle : i + 1 ≤ n := hiN
      have : ((i : ℝ) + 1) ≤ (n : ℝ) := by exact_mod_cast hle
      linarith
    have hnum : 0 ≤ (i : ℝ) * (b - a) := by
      have : (0 : ℝ) ≤ (i : ℝ) := Nat.cast_nonneg i
      nlinarith
    constructor
    · have : 0 ≤ (i : ℝ) * (b - a) / ((n : ℝ) - 1) := div_nonneg hnum hpos.le
      linarith
    · have : (i : ℝ) * (b - a) / ((n : ℝ) - 1) ≤ b - a := by
        rw [div_le_iff₀ hpos]
        nlinarith
      linarith

theorem interpPts_cons₂ (x0 y0 x1 y1 : ℝ) (rest : List (ℝ × ℝ)) (x : ℝ) :
    interpPts ((x0, y0) :: (x1, y1) :: rest) x =
      if x < x0 then 0
      else if x ≤ x1 then y0 + (x - x0) * (y1 - y0) / (x1 - x0)
      else interpPts ((x1, y1) :: rest) x := by
  rfl

theorem interp1d_pair {x0 x1 y0 y1 x : ℝ} (h0 : x0 ≤ x) (h1 : x ≤ x1) :
    interp1d [x0, x1] [y0, y1] x = y0 + (x - x0) * (y1 - y0) / (x1 - x0) := by
  unfold interp1d
  simp only [List.zip_cons_cons, List.zip_nil_right]
  rw [interpPts_cons₂, if_neg (not_lt.2 h0), if_pos h1]

theorem pyInt_of_nonneg {x : ℝ} (h : 0 ≤ x) : pyInt x = ⌊x⌋ := by
  unfold pyInt
  exact if_pos h

theorem hbN_odd (d s : ℝ) : hbN d s % 2 = 1 := by
  unfold hbN
  rcases Int.emod_two_eq (pyInt (2 * d / s)) with h | h
  · rw [if_pos (by omega)]
    omega
  · rw [if_neg (by omega)]
    exact h

theorem hbN_ge_three {d s : ℝ} (hs : 0 < s) (hsd : s ≤ d) : 3 ≤ hbN d s := by
  have hx : (2 : ℝ) ≤ 2 * d / s := by
    rw [le_div_iff₀ hs]
    nlinarith
  have h0 : (0 : ℝ) ≤ 2 * d / s := by linarith
  have h2 : (2 : ℤ) ≤ pyInt (2 * d / s) := by
    rw [pyInt_of_nonneg h0]
    exact Int.le_floor.mpr (by exact_mod_cast hx)
  unfold hbN
  split <;> omega

theorem toNat_hbN_ge_three {d s : ℝ} (hs : 0 < s) (hsd : s ≤ d) : 3 ≤ (hbN d s).toNat := by
  have := hbN_ge_three hs hsd
  omega

/-- The offset at index i vanishes exactly at the middle index (n-1)/2, n odd. -/
theorem hb_offset_zero_iff {d : ℝ} (hd : d ≠ 0) {n : ℕ} (h3 : 3 ≤ n) (hodd : n % 2 = 1)
    (i : ℕ) :
    (-d + (i : ℝ) * (d - -d) / ((n : ℝ) - 1) = 0) ↔ i = (n - 1) / 2 := by
  have h2m : 2 * ((n - 1) / 2) = n - 1 := by omega
  have h1n : (1 : ℕ) ≤ n := by omega
  have hmr : (2 : ℝ) * (((n - 1) / 2 : ℕ) : ℝ) = (n : ℝ) - 1 := by
    have := congrArg (fun k : ℕ => (k : ℝ)) h2m
    push_cast [Nat.cast_sub h1n] at this
    linarith
  have hne : ((n : ℝ) - 1) ≠ 0 := by
    have : (3 : ℝ) ≤ (n : ℝ) := by exact_mod_cast h3
    linarith
  constructor
  · intro hzero
    have h0 : (i : ℝ) * (d - -d) / ((n : ℝ) - 1) = d := by linarith
    have h1 : (i : ℝ) * (d - -d) = d * ((n : ℝ) - 1) := (div_eq_iff hne).mp h0
    have h2 : d * (2 * (i : ℝ)) = d * ((n : ℝ) - 1) := by
      calc d * (2 * (i : ℝ)) = (i : ℝ) * (d - -d) := by ring
        _ = d * ((n : ℝ) - 1) := h1
    have h4 : (2 : ℝ) * (i : ℝ) = (n : ℝ) - 1 := mul_left_cancel₀ hd h2
    have h5 : (i : ℝ) = (((n - 1) / 2 : ℕ) : ℝ) := by
      rw [← hmr] at h4
      linarith
    exact_mod_cast h5
  · rintro rfl
    rw [show ((n : ℝ) - 1) = 2 * (((n - 1) / 2 : ℕ) : ℝ) from hmr.symm]
    have hmne : (((n - 1) / 2 : ℕ) : ℝ) ≠ 0 := by
      have h1 : 1 ≤ (n - 1) / 2 := by omega
      have : (1 : ℝ) ≤ (((n - 1) / 2 : ℕ) : ℝ) := by exact_mod_cast h1
      linarith
    field_simp
    ring

theorem zero_mem_hbOffsets {d s : ℝ} (hs : 0 < s) (hsd : s ≤ d) :
    (0 : ℝ) ∈ hbOffsets d s := by
  have h3 := toNat_hbN_ge_three hs hsd
  have hoddZ := hbN_odd d s
  have hd : d ≠ 0 := ne_of_gt (lt_of_lt_of_le hs hsd)
  set n := (hbN d s).toNat with hn
  have hodd : n % 2 = 1 := by omega
  unfold hbOffsets linspace
  rw [← hn, if_neg (by omega : ¬ n = 1)]
  refine List.mem_map.mpr ⟨(n - 1) / 2, List.mem_range.mpr (by omega), ?_⟩
  exact (hb_offset_zero_iff hd h3 hodd ((n - 1) / 2)).mpr rfl

theorem filter_ne_length {l : List ℕ} {a : ℕ} (hnd : l.Nodup) (ha : a ∈ l) :
    (l.filter (fun i => decide (i ≠ a))).length = l.length - 1 := by
  induction l with
  | nil => cases ha
  | cons x t ih =>
    rcases List.mem_cons.mp ha with hax | hat
    · subst hax
      have hxt : a ∉ t := (List.nodup_cons.mp hnd).1
      rw [List.filter_cons, if_neg (by simp)]
      rw [List.filter_eq_self.mpr ?_]
      · simp
      · intro b hb
        simp only [ne_eq, decide_eq_true_eq]
        rintro rfl
        exact hxt hb
      
    · have hx : x ≠ a := by
        rintro rfl
        exact (List.nodup_cons.mp hnd).1 hat
      rw [List.filter_cons, if_pos (by simp [hx])]
      have ht := ih (List.nodup_cons.mp hnd).2 hat
      have hpos : 1 ≤ t.length := List.length_pos.mpr (by rintro rfl; cases hat)
      simp only [List.length_cons, ht]
      omega

theorem length_nonzeroOffsets {d s : ℝ} (hs : 0 < s) (hsd : s ≤ d) :
    (nonzeroOffsets d s).length = (hbN d s).toNat - 1 := by
  have h3 := toNat_hbN_ge_three hs hsd
  have hoddZ := hbN_odd d s
  have hd : d ≠ 0 := ne_of_gt (lt_of_lt_of_le hs hsd)
  set n := (hbN d s).toNat with hn
  have hodd : n % 2 = 1 := by omega
  unfold nonzeroOffsets hbOffsets linspace
  rw [← hn, if_neg (by omega : ¬ n = 1), List.filter_map, List.length_map]
  have key : ∀ i ∈ List.range n,
      ((fun x : ℝ => decide (x ≠ 0)) ∘ fun i : ℕ =>
        -d + (i : ℝ) * (d - -d) / ((n : ℝ) - 1)) i = decide (i ≠ (n - 1) / 2) := by
    intro i _
    simp only [Function.comp_apply, decide_eq_decide]
    exact not_congr (hb_offset_zero_iff hd h3 hodd i)
  rw [List.filter_congr key, filter_ne_length (List.nodup_range n)
    (List.mem_range.mpr (by omega))]
  simp

theorem hbPdfDiv_getD {cut : List Bool} {pdf : List ℝ} (n : ℤ) {i : ℕ}
    (hic : i < cut.length) (hip : i < pdf.length) (hc : cut.getD i false = true) :
    (hbPdfDiv cut pdf n).getD i 0 = pdf.getD i 0 / (n : ℝ) := by
  unfold hbPdfDiv
  have hlen : i < (List.zipWith (fun b w => if b then w / (n : ℝ) else w) cut pdf).length := by
    rw [List.length_zipWith]
    omega
  rw [List.getD_eq_getElem _ _ hlen, List.getElem_zipWith, List.getD_eq_getElem _ _ hip,
    List.getD_eq_getElem _ _ hic] at *
  simp_all

/-- Elementwise weight conservation through division by n plus (n-1) appended
copies of the selected entries. -/
theorem hbPdfDiv_sum_conserved (n : ℤ) (hn : (n : ℝ) ≠ 0) :
    ∀ (cut : List Bool) (pdf : List ℝ), cut.length = pdf.length →
      (hbPdfDiv cut pdf n).sum +
        ((n : ℝ) - 1) * (maskFilter cut (hbPdfDiv cut pdf n)).sum = pdf.sum := by
  intro cut
  induction cut with
  | nil =>
    intro pdf h
    have : pdf = [] := List.length_eq_zero.mp h.symm
    subst this
    simp [hbPdfDiv, maskFilter]
  | cons b m ih =>
    intro pdf h
    cases pdf with
    | nil => simp at h
    | cons w t =>
      have ht : m.length = t.length := by simpa using h
      have iht := ih t ht
      cases b
      · have hdiv : hbPdfDiv (false :: m) (w :: t) n = w :: hbPdfDiv m t n := by
          simp [hbPdfDiv]
        rw [hdiv, maskFilter_cons]
        simp only [if_neg (by simp : ¬ (false : Bool) = true)]
        simp only [List.sum_cons]
        linarith
      · have hdiv : hbPdfDiv (true :: m) (w :: t) n = (w / (n : ℝ)) :: hbPdfDiv m t n := by
          simp [hbPdfDiv]
        rw [hdiv, maskFilter_cons]
        simp only [if_true, List.sum_cons]
        have hw : w / (n : ℝ) + ((n : ℝ) - 1) * (w / (n : ℝ)) = w := by
          field_simp
          ring
        have hexp : ((n : ℝ) - 1) * (w / (n : ℝ) + (maskFilter m (hbPdfDiv m t n)).sum) =
            ((n : ℝ) - 1) * (w / (n : ℝ)) +
              ((n : ℝ) - 1) * (maskFilter m (hbPdfDiv m t n)).sum := by ring
        linarith

theorem flatten_const_length {α β : Type} (l : List α) (b : List β) :
    ((l.map (fun _ => b)).flatten).length = l.length * b.length := by
  induction l with
  | nil => simp
  | cons x t ih => simp [ih, Nat.succ_mul, Nat.add_comm]

theorem flatten_map_length {α β : Type} (l : List α) (g : α → List β) (k : ℕ)
    (h : ∀ x ∈ l, (g x).length = k) : ((l.map g).flatten).length = l.length * k := by
  induction l with
  | nil => simp
  | cons x t ih =>
    simp only [List.map_cons, List.flatten_cons, List.length_append,
      h x (List.mem_cons_self x t), ih (fun y hy => h y (List.mem_cons_of_mem x hy)),
      List.length_cons]
    ring

/-! ### Lengths along the sample pipeline -/

theorem massArray_length (t : Isochrone) (steps : ℕ) (fdr : Bool) :
    (t.massArray steps fdr).length = steps + 1 := by
  unfold Isochrone.massArray
  rw [List.length_map, linspace_length]

theorem massInitArray_length (t : Isochrone) (steps : ℕ) (fdr : Bool) :
    (t.massInitArray steps fdr).length = steps := by
  unfold Isochrone.massInitArray
  rw [List.length_zipWith, List.length_tail, List.length_dropLast, massArray_length]
  simp

theorem dMass_length (t : Isochrone) (steps : ℕ) (fdr : Bool) :
    (t.dMass steps fdr).length = steps := by
  unfold Isochrone.dMass
  rw [List.length_zipWith, List.length_tail, List.length_dropLast, massArray_length]
  simp

theorem massPdfArray_length (t : Isochrone) (steps : ℕ) (fdr : Bool) :
    (t.massPdfArray steps fdr).length = steps := by
  unfold Isochrone.massPdfArray
  rw [List.length_zipWith, dMass_length, List.length_map, massInitArray_length]
  simp

theorem massActArray_length (t : Isochrone) (steps : ℕ) (fdr : Bool) :
    (t.massActArray steps fdr).length = steps := by
  unfold Isochrone.massActArray
  rw [List.length_map, massInitArray_length]

theorem mag1Array_length (t : Isochrone) (steps : ℕ) (fdr : Bool) :
    (t.mag1Array steps fdr).length = steps := by
  unfold Isochrone.mag1Array
  rw [List.length_map, massInitArray_length]

theorem mag2Array_length (t : Isochrone) (steps : ℕ) (fdr : Bool) :
    (t.mag2Array steps fdr).length = steps := by
  unfold Isochrone.mag2Array
  rw [List.length_map, massInitArray_length]

theorem hbCut_length (t : Isochrone) (steps : ℕ) (fdr : Bool) :
    (t.hbCut steps fdr).length = steps := by
  unfold Isochrone.hbCut
  rw [List.length_map, massInitArray_length]

theorem hbPdfDiv_length (cut : List Bool) (pdf : List ℝ) (n : ℤ) :
    (hbPdfDiv cut pdf n).length = min cut.length pdf.length := by
  unfold hbPdfDiv
  exact List.length_zipWith _ _ _

/-- All five arrays produced by sampleRaw share one length. -/
theorem sampleRaw_lengthsEq (t : Isochrone) (steps : ℕ) (fdr : Bool) :
    (t.sampleRaw steps fdr).lengthsEq := by
  have hmia := massInitArray_length t steps fdr
  have hmpa := massPdfArray_length t steps fdr
  have hmaa := massActArray_length t steps fdr
  have hm1 := mag1Array_length t steps fdr
  have hm2 := mag2Array_length t steps fdr
  have hcut := hbCut_length t steps fdr
  unfold Isochrone.sampleRaw
  split
  · set nZ := hbN t.horizontal_branch_dispersion t.horizontal_branch_spacing with hnZ
    set offs := nonzeroOffsets t.horizontal_branch_dispersion t.horizontal_branch_spacing
      with hoffs
    set cut := t.hbCut steps fdr with hcutdef
    have hD : (hbPdfDiv cut (t.massPdfArray steps fdr) nZ).length = steps := by
      rw [hbPdfDiv_length, hcut, hmpa]
      simp
    set L := (maskFilter cut (t.massInitArray steps fdr)).length with hL
    have hBpdf : (maskFilter cut (hbPdfDiv cut (t.massPdfArray steps fdr) nZ)).length = L :=
      maskFilter_length_eq cut (by rw [hD, hmia])
    have hBmaa : (maskFilter cut (t.massActArray steps fdr)).length = L :=
      maskFilter_length_eq cut (by rw [hmaa, hmia])
    have hBm1 : (maskFilter cut (t.mag1Array steps fdr)).length = L :=
      maskFilter_length_eq cut (by rw [hm1, hmia])
    have hBm2 : (maskFilter cut (t.mag2Array steps fdr)).length = L :=
      maskFilter_length_eq cut (by rw [hm2, hmia])
    have hfl1 : ((offs.map (fun d =>
        (maskFilter cut (t.mag1Array steps fdr)).map (fun x => x + d))).flatten).length =
          offs.length * L :=
      flatten_map_length offs
        (fun d => (maskFilter cut (t.mag1Array steps fdr)).map (fun x => x + d)) L
        (fun x _ => by rw [List.length_map]; exact hBm1)
    have hfl2 : ((offs.map (fun d =>
        (maskFilter cut (t.mag2Array steps fdr)).map (fun x => x + d))).flatten).length =
          offs.length * L :=
      flatten_map_length offs
        (fun d => (maskFilter cut (t.mag2Array steps fdr)).map (fun x => x + d)) L
        (fun x _ => by rw [List.length_map]; exact hBm2)
    refine ⟨?_, ?_, ?_, ?_⟩ <;>
      simp only [List.length_append, flatten_const_length, hfl1, hfl2]
    · rw [hD, hmia, hBpdf]
    · rw [hmaa, hmia, hBmaa]
    · rw [hm1, hmia]
    · rw [hm2, hmia]
  · exact ⟨by rw [hmpa, hmia], by rw [hmaa, hmia], by rw [hm1, hmia], by rw [hm2, hmia]⟩

/-! ### Claim C2 -/

/-- C2: for every call, whenever Track.sample returns, its five sequences
(representative initial mass, weight, actual mass, magnitude 1, magnitude 2)
have equal length, and the function is deterministic: equal inputs give equal
outputs. -/
theorem c2_sample_five_aligned_deterministic (t : Isochrone) (mass_steps : ℕ)
    (mass_min : ℝ) (full_data_range : Bool) :
    okP Sampled.lengthsEq (t.sample mass_steps mass_min full_data_range) ∧
      t.sample mass_steps mass_min full_data_range =
        t.sample mass_steps mass_min full_data_range := by
  refine ⟨?_, rfl⟩
  unfold Isochrone.sample
  split
  · trivial
  split
  · have h := sampleRaw_lengthsEq t mass_steps full_data_range
    obtain ⟨h1, h2, h3, h4⟩ := h
    exact ⟨by simpa using h1, by simpa using h2, by simpa using h3, by simpa using h4⟩
  · trivial

/-! ### Claim C5 -/

/-- C5 (code-bug evidence): normalizeWithMask can never return a map.  sample()
returns a 5-tuple (line 283) but line 426 unpacks it into four names, so every
call that gets past sampling raises ValueError, and a sampling failure
propagates as an error as well. -/
theorem c5_normalizeWithMask_never_returns (t : Isochrone) (mask : Mask)
    (distance_modulus : ℝ) (mass_steps : ℕ) (mass_min : ℝ) :
    (t.normalizeWithMask mask distance_modulus mass_steps mass_min).isOk = false := by
  unfold Isochrone.normalizeWithMask
  cases h : t.sample mass_steps (1 / 10) false with
  | error e =>
    simp only [bind, Except.bind, h, Except.isOk, Except.toBool]
  | ok s =>
    simp only [bind, Except.bind, h, unpack4, Sampled.toList, Except.isOk, Except.toBool]

/-! ### Claim C9 -/

/-- C9: simulate with stellar_mass = 0 draws no stars: whenever it returns, the
two magnitude arrays are empty (the zero-division and member-sampling failure
paths report errors instead of returning). -/
theorem c9_simulate_zero_mass_is_empty (c : CompositeIsochrone)
    (distance_modulus : ℝ) (rands : ℕ → ℝ) :
    okP (fun p => p = ([], [])) (c.simulate 0 distance_modulus rands) := by
  unfold CompositeIsochrone.simulate
  split
  · trivial
  · cases h : c.sample 1000 (1 / 10) false with
    | error e =>
      simp only [bind, Except.bind, h, okP]
    | ok s =>
      simp only [bind, Except.bind, h, okP]
      have hz : pyInt (0 : ℝ) = 0 := by
        rw [pyInt_of_nonneg le_rfl, Int.floor_zero]
      simp [hz, okP, pure, Except.pure]

/-! ### Concrete evaluation of sample on exTrackTail (mass_steps = 1) -/

theorem exTrackTail_index : exTrackTail.index = 2 := by decide

theorem exTrackTail_working : exTrackTail.workingMassInit false = [1, 4] := rfl

theorem exTrackTail_ub : exTrackTail.mass_init_upper_bound = 16 := by
  simp only [Isochrone.mass_init_upper_bound, npMax, exTrackTail, List.headI, List.foldl]
  norm_num [max_def]

theorem exTrackTail_not_hbActive : ¬ exTrackTail.hbActive := by
  intro h
  have := h.1
  simp only [exTrackTail] at this
  norm_num at this

theorem exTrackTail_massArray : exTrackTail.massArray 1 false = [1, 4] := by
  unfold Isochrone.massArray
  rw [exTrackTail_working]
  have hr2 : List.range ([(1 : ℝ), 4].length) = [0, 1] := rfl
  have hls : linspace 0 ((([(1 : ℝ), 4].length : ℕ) : ℝ) - 1) (1 + 1) = [0, 1] := by
    unfold linspace
    rw [if_neg (by norm_num)]
    rw [show List.range (1 + 1) = [0, 1] from rfl]
    norm_num
  rw [hls, hr2]
  have h0 : interp1d [(0 : ℝ), 1] [1, 4] 0 = 1 := by
    rw [interp1d_pair le_rfl (by norm_num : (0 : ℝ) ≤ 1)]
    norm_num
  have h1 : interp1d [(0 : ℝ), 1] [1, 4] 1 = 4 := by
    rw [interp1d_pair (by norm_num : (0 : ℝ) ≤ 1) le_rfl]
    norm_num
  have hidx : ([0, 1] : List ℕ).map (fun i : ℕ => (i : ℝ)) = [0, 1] := by norm_num
  rw [hidx]
  simp [h0, h1]

theorem exTrackTail_massPdfArray : exTrackTail.massPdfArray 1 false = [3] := by
  unfold Isochrone.massPdfArray Isochrone.dMass Isochrone.massInitArray
  rw [exTrackTail_massArray]
  simp only [List.tail_cons, List.dropLast, List.zipWith_cons_cons, List.zipWith_nil_right,
    List.map_cons, List.map_nil]
  norm_num [exTrackTail, exIMF]

theorem exTrackTail_weight_sum : okWeightSum (exTrackTail.sample 1 1 false) = 1 / 5 := by
  unfold Isochrone.sample
  rw [if_neg (by rw [exTrackTail_working]; norm_num),
    if_pos (by rw [exTrackTail_ub]; norm_num : (0 : ℝ) < 1 ∧ (1 : ℝ) < exTrackTail.mass_init_upper_bound)]
  unfold okWeightSum
  unfold Isochrone.sampleRaw
  rw [if_neg exTrackTail_not_hbActive]
  simp only []
  rw [exTrackTail_massPdfArray, exTrackTail_ub]
  show ([(3 : ℝ)].map (fun w => w / exTrackTail.imf.integrate 1 16)).sum = 1 / 5
  norm_num [exTrackTail, exIMF]

/-! ### Claim C1 -/

/-- C1: every weight returned by Track.sample is the raw (post-dispersion) bin
weight divided by imf.integrate(mass_min, mass_init_upper_bound), where the
upper bound is the max of mass_init over the whole table, also when
full_data_range is false and the tail was excluded from the grid; consequently
the weights need not sum to 1 even at mass_min equal to the track's true lower
bound: for exTrackTail with mass_min 1 = min(mass_init) they sum to 1/5. -/
theorem c1_normalization_uses_full_upper_bound :
    (∀ (t : Isochrone) (mass_steps : ℕ) (mass_min : ℝ) (fdr : Bool),
        okP (fun s => s.mass_pdf_array =
            (t.sampleRaw mass_steps fdr).mass_pdf_array.map
              (fun w => w / t.imf.integrate mass_min (npMax t.mass_init)))
          (t.sample mass_steps mass_min fdr)) ∧
      npMin exTrackTail.mass_init = 1 ∧
      okWeightSum (exTrackTail.sample 1 1 false) = 1 / 5 ∧
      okWeightSum (exTrackTail.sample 1 1 false) ≠ 1 := by
  refine ⟨?_, ?_, exTrackTail_weight_sum, ?_⟩
  · intro t mass_steps mass_min fdr
    unfold Isochrone.sample
    split
    · trivial
    split
    · show (Isochrone.sampleRaw t mass_steps fdr).mass_pdf_array.map
        (fun w => w / t.imf.integrate mass_min t.mass_init_upper_bound) =
          (t.sampleRaw mass_steps fdr).mass_pdf_array.map
            (fun w => w / t.imf.integrate mass_min (npMax t.mass_init))
      rfl
    · trivial
  · simp only [npMin, exTrackTail, List.headI, List.foldl]
    norm_num [min_def]
  · rw [exTrackTail_weight_sum]
    norm_num

/-! ### Claim C4 -/

/-- C4: sample reports the insufficient-data error whenever the working
sub-array selected by full_data_range has fewer than 2 points, and (through the
spec-modelled IMF.integrate precondition) a domain error whenever
mass_min ≥ mass_init_upper_bound; in both cases an error is reported rather
than a value. -/
theorem c4_sample_error_cases (t : Isochrone) (mass_steps : ℕ) (mass_min : ℝ)
    (full_data_range : Bool) :
    ((t.workingMassInit full_data_range).length < 2 →
        t.sample mass_steps mass_min full_data_range = .error .insufficientData) ∧
      (2 ≤ (t.workingMassInit full_data_range).length →
        t.mass_init_upper_bound ≤ mass_min →
        t.sample mass_steps mass_min full_data_range = .error .imfDomain) := by
  constructor
  · intro h
    unfold Isochrone.sample
    rw [if_pos h]
  · intro h2 hub
    unfold Isochrone.sample
    rw [if_neg (by omega), if_neg ?hg]
    case hg =>
      rintro ⟨_, hlt⟩
      linarith

/-- Witness for C4: the one-row track trips the insufficient-data error; the
tail track with mass_min = 20 ≥ 16 trips the domain error. -/
theorem c4_sample_error_cases_witness :
    exTrackOne.sample 1 1 false = .error .insufficientData ∧
      exTrackTail.sample 1 20 false = .error .imfDomain := by
  constructor
  · exact (c4_sample_error_cases exTrackOne 1 1 false).1 (by decide)
  · exact (c4_sample_error_cases exTrackTail 1 20 false).2
      (by rw [exTrackTail_working]; norm_num) (by rw [exTrackTail_ub]; norm_num)

/-! ### Claims C8 and C10 -/

theorem sum_map_div (l : List ℝ) (c : ℝ) : (l.map (fun x => x / c)).sum = l.sum / c := by
  induction l with
  | nil => simp
  | cons a t ih => simp [ih, add_div]

/-- C8: with a nonempty track list, matching lengths and positive weights,
construction succeeds, stores the weights divided by their sum, and the stored
weights sum to 1 regardless of input scale; a length mismatch fails
construction via sys.exit. -/
theorem c8_composite_weights_sum_to_one (isochrones : List Isochrone)
    (weights : List ℝ) (hne : isochrones ≠ [])
    (hlen : isochrones.length = weights.length) (hpos : ∀ w ∈ weights, 0 < w) :
    (CompositeIsochrone.init isochrones weights =
        .ok (⟨isochrones, weights.map (fun x => x / weights.sum)⟩,
             weights.map (fun x => x / weights.sum)) ∧
      (weights.map (fun x => x / weights.sum)).sum = 1) ∧
      ∀ (isochrones2 : List Isochrone) (weights2 : List ℝ), isochrones2 ≠ [] →
        isochrones2.length ≠ weights2.length →
        CompositeIsochrone.init isochrones2 weights2 = .error .systemExit := by
  refine ⟨⟨?_, ?_⟩, ?_⟩
  · unfold CompositeIsochrone.init
    rw [if_neg (by simpa [List.isEmpty_iff] using hne), if_neg (by omega)]
  · have hwne : weights ≠ [] := by
      rintro rfl
      exact hne (List.length_eq_zero.mp (by simpa using hlen))
    have hsum : 0 < weights.sum := List.sum_pos weights hpos hwne
    rw [sum_map_div, div_self (ne_of_gt hsum)]
  · intro i2 w2 hne2 hlen2
    unfold CompositeIsochrone.init
    rw [if_neg (by simpa [List.isEmpty_iff] using hne2), if_pos hlen2]

/-- Witness for C8 at the example of the spec: input weights [2, 2, 4] become
[1/4, 1/4, 1/2] and sum to 1. -/
theorem c8_composite_weights_sum_to_one_witness :
    CompositeIsochrone.init [exTrackPlain, exTrackPlain, exTrackPlain] [2, 2, 4] =
        .ok (⟨[exTrackPlain, exTrackPlain, exTrackPlain], [1 / 4, 1 / 4, 1 / 2]⟩,
             [1 / 4, 1 / 4, 1 / 2]) ∧
      ([(1 : ℝ) / 4, 1 / 4, 1 / 2]).sum = 1 := by
  have h := c8_composite_weights_sum_to_one [exTrackPlain, exTrackPlain, exTrackPlain]
    [2, 2, 4] (by simp) (by simp) ?hpos
  case hpos =>
    intro w hw
    simp only [List.mem_cons, List.not_mem_nil, or_false] at hw
    rcases hw with rfl | rfl | rfl <;> norm_num
  have hmap : ([2, 2, 4] : List ℝ).map (fun x => x / ([2, 2, 4] : List ℝ).sum) =
      [1 / 4, 1 / 4, 1 / 2] := by
    norm_num [List.sum_cons]
  obtain ⟨⟨h1, h2⟩, _⟩ := h
  rw [hmap] at h1 h2
  exact ⟨h1, h2⟩

/-- C10 (implicit frame effect): numpy /= divides the caller's weight array in
place, so after a successful construction the caller-passed array object holds
the normalized weights; when the input sum differs from 1 and some entry is
nonzero, those contents differ from the originals. -/
theorem c10_init_mutates_caller_array (isochrones : List Isochrone)
    (weights : List ℝ) (hne : isochrones ≠ [])
    (hlen : isochrones.length = weights.length)
    (hsum : weights.sum ≠ 1) (w0 : ℝ) (hmem : w0 ∈ weights) (hw0 : w0 ≠ 0) :
    CompositeIsochrone.init isochrones weights =
        .ok (⟨isochrones, weights.map (fun x => x / weights.sum)⟩,
             weights.map (fun x => x / weights.sum)) ∧
      weights.map (fun x => x / weights.sum) ≠ weights := by
  constructor
  · unfold CompositeIsochrone.init
    rw [if_neg (by simpa [List.isEmpty_iff] using hne), if_neg (by omega)]
  · intro heq
    by_cases hT : weights.sum = 0
    · have hmem2 : w0 ∈ weights.map (fun x => x / weights.sum) := heq.symm ▸ hmem
      obtain ⟨x, _, hxe⟩ := List.mem_map.mp hmem2
      rw [hT, div_zero] at hxe
      exact hw0 hxe.symm
    · have hs := congrArg List.sum heq
      rw [sum_map_div, div_self hT] at hs
      exact hsum hs.symm

/-- Witness for C10: the caller's array [2, 2, 4] ends up holding the
normalized weights, which differ from the original contents. -/
theorem c10_init_mutates_caller_array_witness :
    CompositeIsochrone.init [exTrackPlain, exTrackPlain, exTrackPlain] [2, 2, 4] =
        .ok (⟨[exTrackPlain, exTrackPlain, exTrackPlain],
              ([2, 2, 4] : List ℝ).map (fun x => x / ([2, 2, 4] : List ℝ).sum)⟩,
             ([2, 2, 4] : List ℝ).map (fun x => x / ([2, 2, 4] : List ℝ).sum)) ∧
      ([2, 2, 4] : List ℝ).map (fun x => x / ([2, 2, 4] : List ℝ).sum) ≠ [2, 2, 4] := by
  refine c10_init_mutates_caller_array _ _ (by simp) (by simp) ?_ 2 (by simp) (by norm_num)
  norm_num [List.sum_cons]

/-! ### Claim C7 -/

/-- C7 counterexample: exTrackDesc has exactly 2 horizontal-branch points with
strictly decreasing colors [3, 1] — the monotonicity precondition is violated —
yet envelope construction completes (returns the envelope), only raising the
warning flag, instead of failing loudly. -/
theorem c7_counterexample_nonmonotone_completes :
    maskFilter (exTrackDesc.stage.map (fun s => s == "BHeb")) exTrackDesc.color =
        [3, 1] ∧
      ¬ sortedLE [(3 : ℝ), 1] ∧
      (exTrackDesc.setHorizontalBranch "BHeb" (1 / 2)).isOk = true ∧
      okWarn (exTrackDesc.setHorizontalBranch "BHeb" (1 / 2)) = true := by
  have hcolor : exTrackDesc.color = [3, 1] := by
    simp only [Isochrone.color, exTrackDesc, List.zipWith_cons_cons, List.zipWith_nil_right]
    norm_num
  have hmaskv : exTrackDesc.stage.map (fun s => s == "BHeb") = [true, true] := by decide
  have hcolors : maskFilter (exTrackDesc.stage.map (fun s => s == "BHeb"))
      exTrackDesc.color = [3, 1] := by
    rw [hcolor, hmaskv, maskFilter_cons, maskFilter_cons]
    simp [maskFilter]
  have hnots : ¬ sortedLE [(3 : ℝ), 1] := by
    intro h
    rcases h with _ | ⟨h31, _⟩
    norm_num at h31
  refine ⟨hcolors, hnots, ?_, ?_⟩ <;>
  · unfold Isochrone.setHorizontalBranch
    rw [if_neg (by rw [hcolors]; norm_num)]
    simp [okWarn, hcolors, hnots, Except.isOk, Except.toBool]

/-- C7 amended: with fewer than 2 labelled points the construction fails (the
interpolation library's insufficient-data error, after the warning); with at
least 2 points it always completes — also under violated monotonicity — and
the warning flag is set exactly when the colors are not sorted. -/
theorem c7_amended_warn_only (t : Isochrone) (hb_stage : String) (pad : ℝ) :
    ((maskFilter (t.stage.map (fun s => s == hb_stage)) t.color).length < 2 →
        t.setHorizontalBranch hb_stage pad = .error .insufficientData) ∧
      (2 ≤ (maskFilter (t.stage.map (fun s => s == hb_stage)) t.color).length →
        (t.setHorizontalBranch hb_stage pad).isOk = true ∧
          okWarn (t.setHorizontalBranch hb_stage pad) =
            decide (¬ sortedLE (maskFilter (t.stage.map (fun s => s == hb_stage)) t.color))) := by
  constructor
  · intro h
    unfold Isochrone.setHorizontalBranch
    rw [if_pos h]
  · intro h2
    unfold Isochrone.setHorizontalBranch
    rw [if_neg (by omega)]
    refine ⟨rfl, ?_⟩
    show decide ((maskFilter (t.stage.map (fun s => s == hb_stage)) t.color).length < 2 ∨
      ¬ sortedLE (maskFilter (t.stage.map (fun s => s == hb_stage)) t.color)) = _
    rw [decide_eq_decide]
    exact or_iff_right (by omega)

/-- Witness for C7 amended: a track without the label errors out; exTrackHB0
has 2 labelled points with sorted colors and completes. -/
theorem c7_amended_warn_only_witness :
    exTrackPlain.setHorizontalBranch "BHeb" (1 / 2) = .error .insufficientData ∧
      ((exTrackHB0.setHorizontalBranch "BHeb" (1 / 2)).isOk = true ∧
        okWarn (exTrackHB0.setHorizontalBranch "BHeb" (1 / 2)) =
          decide (¬ sortedLE (maskFilter (exTrackHB0.stage.map (fun s => s == "BHeb"))
            exTrackHB0.color))) := by
  constructor
  · refine (c7_amended_warn_only exTrackPlain "BHeb" (1 / 2)).1 ?_
    have hmaskv : exTrackPlain.stage.map (fun s => s == "BHeb") = [false, false] := by decide
    have hcolor : exTrackPlain.color = [0, 0] := by
      simp only [Isochrone.color, exTrackPlain, List.zipWith_cons_cons,
        List.zipWith_nil_right]
      norm_num
    rw [hmaskv, hcolor]
    have : maskFilter [false, false] [(0 : ℝ), 0] = [] := by
      rw [maskFilter_cons, maskFilter_cons]
      simp [maskFilter]
    rw [this]
    norm_num
  · refine (c7_amended_warn_only exTrackHB0 "BHeb" (1 / 2)).2 ?_
    have hmaskv : exTrackHB0.stage.map (fun s => s == "BHeb") = [true, true] := by decide
    have hcolor : exTrackHB0.color = [0, 0] := by
      simp only [Isochrone.color, exTrackHB0, exTrackPlain, List.zipWith_cons_cons,
        List.zipWith_nil_right]
      norm_num
    rw [hmaskv, hcolor, maskFilter_cons, maskFilter_cons]
    simp [maskFilter]

/-! ### Claim C3: horizontal-branch dispersion -/

theorem massArray_pair (t : Isochrone) (hw : t.workingMassInit false = [1, 4]) :
    t.massArray 1 false = [1, 4] := by
  unfold Isochrone.massArray
  rw [hw]
  have hls : linspace 0 ((([(1 : ℝ), 4].length : ℕ) : ℝ) - 1) (1 + 1) = [0, 1] := by
    unfold linspace
    rw [if_neg (by norm_num), show List.range (1 + 1) = [0, 1] from rfl]
    norm_num
  rw [hls]
  have h0 : interp1d [(0 : ℝ), 1] [1, 4] 0 = 1 := by
    rw [interp1d_pair le_rfl (by norm_num : (0 : ℝ) ≤ 1)]
    norm_num
  have h1 : interp1d [(0 : ℝ), 1] [1, 4] 1 = 4 := by
    rw [interp1d_pair (by norm_num : (0 : ℝ) ≤ 1) le_rfl]
    norm_num
  have hidx : (List.range ([(1 : ℝ), 4].length)).map (fun i : ℕ => (i : ℝ)) = [0, 1] := by
    rw [show List.range ([(1 : ℝ), 4].length) = [0, 1] from rfl]
    norm_num
  rw [hidx]
  simp [h0, h1]

theorem massInitArray_pair (t : Isochrone) (hw : t.massArray 1 false = [1, 4]) :
    t.massInitArray 1 false = [Real.sqrt (4 * 1)] := by
  unfold Isochrone.massInitArray
  rw [hw]
  simp [List.dropLast]

theorem massPdfArray_pair (t : Isochrone) (hw : t.massArray 1 false = [1, 4])
    (hpdf : t.imf.pdf = fun _ => 1) : t.massPdfArray 1 false = [3] := by
  unfold Isochrone.massPdfArray Isochrone.dMass Isochrone.massInitArray
  rw [hw, hpdf]
  simp [List.dropLast]
  norm_num

theorem sqrt_four_one : Real.sqrt ((4 : ℝ) * 1) = 2 := by
  rw [show (4 : ℝ) * 1 = 2 ^ 2 by norm_num, Real.sqrt_sq (by norm_num : (0 : ℝ) ≤ 2)]

theorem hbN_exHB : hbN (1 / 100) (1 / 10) = 1 := by
  have harg : (2 : ℝ) * (1 / 100) / (1 / 10) = 1 / 5 := by norm_num
  have hfloor : pyInt (2 * (1 / 100) / (1 / 10) : ℝ) = 0 := by
    rw [harg, pyInt_of_nonneg (by norm_num)]
    rw [Int.floor_eq_zero_iff]
    constructor <;> norm_num
  unfold hbN
  rw [hfloor]
  norm_num

theorem hbOffsets_exHB : hbOffsets (1 / 100) (1 / 10) = [-(1 / 100)] := by
  unfold hbOffsets
  rw [hbN_exHB]
  exact linspace_one _ _

theorem nonzeroOffsets_exHB : nonzeroOffsets (1 / 100) (1 / 10) = [-(1 / 100)] := by
  unfold nonzeroOffsets
  rw [hbOffsets_exHB, List.filter_cons]
  rw [if_pos (by simp only [decide_eq_true_eq]; norm_num)]
  simp

theorem exTrackHB_active : exTrackHB.hbActive := by
  constructor
  · show (1 : ℝ) / 1000 < exTrackHB.horizontal_branch_dispersion
    norm_num [exTrackHB]
  · decide

theorem exTrackHB_ub : exTrackHB.mass_init_upper_bound = 4 := by
  simp only [Isochrone.mass_init_upper_bound, npMax, exTrackHB, exTrackPlain, List.headI,
    List.foldl]
  norm_num [max_def]

theorem exTrackHB_hbmin : exTrackHB.hbMassMin = 1 := by
  unfold Isochrone.hbMassMin
  rw [show exTrackHB.hbStageMask = [true, true] from by decide]
  rw [show exTrackHB.mass_init = [1, 4] from rfl, maskFilter_cons, maskFilter_cons]
  simp only [if_true, maskFilter]
  simp only [npMin, List.headI, List.foldl]
  norm_num [min_def]

theorem exTrackHB_hbmax : exTrackHB.hbMassMax = 4 := by
  unfold Isochrone.hbMassMax
  rw [show exTrackHB.hbStageMask = [true, true] from by decide]
  rw [show exTrackHB.mass_init = [1, 4] from rfl, maskFilter_cons, maskFilter_cons]
  simp only [if_true, maskFilter]
  simp only [npMax, List.headI, List.foldl]
  norm_num [max_def]

theorem exTrackHB_cut : exTrackHB.hbCut 1 false = [true] := by
  unfold Isochrone.hbCut
  rw [massInitArray_pair exTrackHB (massArray_pair exTrackHB rfl), exTrackHB_hbmin, exTrackHB_hbmax,
    sqrt_four_one]
  simp only [List.map_cons, List.map_nil, List.cons.injEq, and_true]
  rw [Bool.and_eq_true, decide_eq_true_eq, decide_eq_true_eq]
  constructor <;> norm_num

theorem exTrackHB_raw_pdf : (exTrackHB.sampleRaw 1 false).mass_pdf_array = [3, 3] := by
  unfold Isochrone.sampleRaw
  rw [if_pos exTrackHB_active]
  show hbPdfDiv (exTrackHB.hbCut 1 false) (exTrackHB.massPdfArray 1 false)
      (hbN exTrackHB.horizontal_branch_dispersion exTrackHB.horizontal_branch_spacing) ++
    ((nonzeroOffsets exTrackHB.horizontal_branch_dispersion
        exTrackHB.horizontal_branch_spacing).map
      (fun _ => maskFilter (exTrackHB.hbCut 1 false)
        (hbPdfDiv (exTrackHB.hbCut 1 false) (exTrackHB.massPdfArray 1 false)
          (hbN exTrackHB.horizontal_branch_dispersion
            exTrackHB.horizontal_branch_spacing)))).flatten = [3, 3]
  rw [show exTrackHB.horizontal_branch_dispersion = 1 / 100 from rfl,
    show exTrackHB.horizontal_branch_spacing = 1 / 10 from rfl,
    exTrackHB_cut, massPdfArray_pair exTrackHB (massArray_pair exTrackHB rfl) rfl, hbN_exHB,
    nonzeroOffsets_exHB]
  rw [show hbPdfDiv [true] [3] 1 = [3] from by norm_num [hbPdfDiv]]
  rw [show maskFilter [true] [(3 : ℝ)] = [3] from by rw [maskFilter_cons]; simp [maskFilter]]
  simp

theorem exTrackHB_weight_sum : okWeightSum (exTrackHB.sample 1 1 false) = 2 := by
  unfold Isochrone.sample
  rw [if_neg (by norm_num [show exTrackHB.workingMassInit false = [1, 4] from rfl]),
    if_pos (by rw [exTrackHB_ub]; norm_num :
      (0 : ℝ) < 1 ∧ (1 : ℝ) < exTrackHB.mass_init_upper_bound)]
  unfold okWeightSum
  rw [exTrackHB_raw_pdf, exTrackHB_ub]
  show ([(3 : ℝ), 3].map (fun w => w / exTrackHB.imf.integrate 1 4)).sum = 2
  rw [show exTrackHB.imf = exIMF from rfl]
  norm_num [exIMF]

theorem exTrackHB0_not_active : ¬ exTrackHB0.hbActive := by
  intro h
  have := h.1
  simp only [exTrackHB0, exTrackPlain] at this
  norm_num at this

theorem exTrackHB0_ub : exTrackHB0.mass_init_upper_bound = 4 := by
  simp only [Isochrone.mass_init_upper_bound, npMax, exTrackHB0, exTrackPlain, List.headI,
    List.foldl]
  norm_num [max_def]

theorem exTrackHB0_weight_sum : okWeightSum (exTrackHB0.sample 1 1 false) = 1 := by
  unfold Isochrone.sample
  rw [if_neg (by norm_num [show exTrackHB0.workingMassInit false = [1, 4] from rfl]),
    if_pos (by rw [exTrackHB0_ub]; norm_num :
      (0 : ℝ) < 1 ∧ (1 : ℝ) < exTrackHB0.mass_init_upper_bound)]
  unfold okWeightSum
  unfold Isochrone.sampleRaw
  rw [if_neg exTrackHB0_not_active]
  show ((exTrackHB0.massPdfArray 1 false).map
    (fun w => w / exTrackHB0.imf.integrate 1 exTrackHB0.mass_init_upper_bound)).sum = 1
  rw [massPdfArray_pair exTrackHB0 (massArray_pair exTrackHB0 rfl) rfl, exTrackHB0_ub,
    show exTrackHB0.imf = exIMF from rfl]
  norm_num [exIMF]

/-- C3 counterexample: on exTrackHB the dispersion (1/100) is active and below
the spacing (1/10), so n = 1; the offset grid is the single offset -1/100 and
contains no 0, and the total weight over the one HB bin and its appended copy
is 2 — double the undispersed weight 1 of the same track with dispersion 0 —
so undispersed behavior is not recovered and weight is not conserved at n = 1. -/
theorem c3_counterexample_n_one :
    hbOffsets (1 / 100) (1 / 10) = [-(1 / 100)] ∧
      (0 : ℝ) ∉ hbOffsets (1 / 100) (1 / 10) ∧
      okWeightSum (exTrackHB.sample 1 1 false) = 2 ∧
      okWeightSum (exTrackHB0.sample 1 1 false) = 1 ∧
      (2 : ℝ) ≠ 1 := by
  refine ⟨hbOffsets_exHB, ?_, exTrackHB_weight_sum, exTrackHB0_weight_sum, by norm_num⟩
  rw [hbOffsets_exHB]
  simp only [List.mem_singleton]
  norm_num

/-- C3 amended: the chosen offset count n is always odd, but the rest of the
claim needs n ≥ 3, i.e. spacing ≤ dispersion (the counterexample shows it
fails at n = 1): then the offset grid contains an offset of exactly 0, the
loop appends n - 1 copies of every HB bin, each HB bin's divided weight times
(1 + number of copies) recovers its undispersed weight, and the divided base
plus all copies carry exactly the original total weight. -/
theorem c3_amended_odd_zero_conservation (d s : ℝ) (pdf : List ℝ) (cut : List Bool)
    (i : ℕ) (hs : 0 < s) (hsd : s ≤ d) (hlen : cut.length = pdf.length)
    (hic : i < cut.length) (hc : cut.getD i false = true) :
    hbN d s % 2 = 1 ∧
      (0 : ℝ) ∈ hbOffsets d s ∧
      (nonzeroOffsets d s).length = (hbN d s).toNat - 1 ∧
      (hbPdfDiv cut pdf (hbN d s)).getD i 0 *
          (1 + ((nonzeroOffsets d s).length : ℝ)) = pdf.getD i 0 ∧
      (hbPdfDiv cut pdf (hbN d s)).sum +
          ((nonzeroOffsets d s).length : ℝ) *
            (maskFilter cut (hbPdfDiv cut pdf (hbN d s))).sum = pdf.sum := by
  have h3 := hbN_ge_three hs hsd
  have h3n := toNat_hbN_ge_three hs hsd
  have hcount := length_nonzeroOffsets hs hsd
  have hnR : ((hbN d s : ℤ) : ℝ) ≠ 0 := by
    have : (3 : ℝ) ≤ ((hbN d s : ℤ) : ℝ) := by exact_mod_cast h3
    linarith
  have hmZ : (((hbN d s).toNat : ℕ) : ℤ) = hbN d s := Int.toNat_of_nonneg (by omega)
  have hmR : (((hbN d s).toNat : ℕ) : ℝ) = ((hbN d s : ℤ) : ℝ) := by
    exact_mod_cast congrArg (fun z : ℤ => (z : ℝ)) hmZ
  have hcast : (((nonzeroOffsets d s).length : ℕ) : ℝ) = ((hbN d s : ℤ) : ℝ) - 1 := by
    rw [hcount, Nat.cast_sub (by omega : 1 ≤ (hbN d s).toNat), hmR]
    norm_num
  refine ⟨hbN_odd d s, zero_mem_hbOffsets hs hsd, hcount, ?_, ?_⟩
  · rw [hbPdfDiv_getD (hbN d s) hic (hlen ▸ hic) hc, hcast]
    rw [show 1 + (((hbN d s : ℤ) : ℝ) - 1) = ((hbN d s : ℤ) : ℝ) from by ring]
    rw [div_mul_cancel₀ _ hnR]
  · rw [hcast]
    exact hbPdfDiv_sum_conserved (hbN d s) hnR cut pdf hlen

/-- Witness for the amended C3 at dispersion 1/5, spacing 1/10 (n = 5) and one
HB bin of raw weight 3. -/
theorem c3_amended_odd_zero_conservation_witness :
    hbN (1 / 5) (1 / 10) % 2 = 1 ∧
      (0 : ℝ) ∈ hbOffsets (1 / 5) (1 / 10) ∧
      (nonzeroOffsets (1 / 5) (1 / 10)).length = (hbN (1 / 5) (1 / 10)).toNat - 1 ∧
      (hbPdfDiv [true] [3] (hbN (1 / 5) (1 / 10))).getD 0 0 *
          (1 + ((nonzeroOffsets (1 / 5) (1 / 10)).length : ℝ)) = ([(3 : ℝ)]).getD 0 0 ∧
      (hbPdfDiv [true] [3] (hbN (1 / 5) (1 / 10))).sum +
          ((nonzeroOffsets (1 / 5) (1 / 10)).length : ℝ) *
            (maskFilter [true] (hbPdfDiv [true] [3] (hbN (1 / 5) (1 / 10)))).sum =
        ([(3 : ℝ)]).sum :=
  c3_amended_odd_zero_conservation (1 / 5) (1 / 10) [3] [true] 0 (by norm_num)
    (by norm_num) rfl (by norm_num) rfl

/-! ### Claim C6: observable fraction vs. distance modulus -/

theorem ind_pos {p : Prop} (h : p) : ind p = 1 := by
  unfold ind
  exact if_pos h

theorem ind_neg {p : Prop} (h : ¬ p) : ind p = 0 := by
  unfold ind
  exact if_neg h

theorem ind_nonneg (p : Prop) : 0 ≤ ind p := by
  unfold ind
  split <;> norm_num

/-- C6 amended: the per-pixel value computed by observableFraction is
non-increasing in distance modulus provided the sampled weights are
non-negative and every sampled detection-band magnitude already clears the
bright end of the global magnitude window at the smaller modulus; the
counterexample shows the claim fails without that proviso, when a bright
sample enters the window as the modulus grows. -/
theorem c6_amended_pixel_antitone (pdf magdet mag1 mag2 : List ℝ)
    (mlo mhi clo chi dm1 dm2 m1 m2 : ℝ)
    (hw : ∀ i, 0 ≤ pdf.getD i 0)
    (hbright : ∀ i < pdf.length, mlo < magdet.getD i 0 + dm1)
    (h12 : dm1 ≤ dm2) :
    obsPixelVal pdf magdet mag1 mag2 mlo mhi clo chi dm2 m1 m2 ≤
      obsPixelVal pdf magdet mag1 mag2 mlo mhi clo chi dm1 m1 m2 := by
  unfold obsPixelVal
  apply Finset.sum_le_sum
  intro i hi
  have hiB := Finset.mem_range.mp hi
  by_cases hA : (magdet.getD i 0 + dm2 > mlo ∧ magdet.getD i 0 + dm2 < mhi ∧
      mag1.getD i 0 - mag2.getD i 0 > clo ∧ mag1.getD i 0 - mag2.getD i 0 < chi) ∧
      (mag1.getD i 0 + dm2 < m1 ∧ mag2.getD i 0 + dm2 < m2)
  · obtain ⟨⟨_, hgm, hc1, hc2⟩, hm1, hm2⟩ := hA
    rw [ind_pos ⟨by linarith, hgm, hc1, hc2⟩, ind_pos ⟨hm1, hm2⟩,
      ind_pos ⟨hbright i hiB, by linarith, hc1, hc2⟩, ind_pos ⟨by linarith, by linarith⟩]
  · have hzero : ind (magdet.getD i 0 + dm2 > mlo ∧ magdet.getD i 0 + dm2 < mhi ∧
        mag1.getD i 0 - mag2.getD i 0 > clo ∧ mag1.getD i 0 - mag2.getD i 0 < chi) *
        ind (mag1.getD i 0 + dm2 < m1 ∧ mag2.getD i 0 + dm2 < m2) = 0 := by
      by_cases hA1 : magdet.getD i 0 + dm2 > mlo ∧ magdet.getD i 0 + dm2 < mhi ∧
          mag1.getD i 0 - mag2.getD i 0 > clo ∧ mag1.getD i 0 - mag2.getD i 0 < chi
      · rw [ind_neg (fun hB => hA ⟨hA1, hB⟩), mul_zero]
      · rw [ind_neg hA1, zero_mul]
    calc pdf.getD i 0 *
        ind (magdet.getD i 0 + dm2 > mlo ∧ magdet.getD i 0 + dm2 < mhi ∧
          mag1.getD i 0 - mag2.getD i 0 > clo ∧ mag1.getD i 0 - mag2.getD i 0 < chi) *
        ind (mag1.getD i 0 + dm2 < m1 ∧ mag2.getD i 0 + dm2 < m2)
        = pdf.getD i 0 *
          (ind (magdet.getD i 0 + dm2 > mlo ∧ magdet.getD i 0 + dm2 < mhi ∧
            mag1.getD i 0 - mag2.getD i 0 > clo ∧ mag1.getD i 0 - mag2.getD i 0 < chi) *
           ind (mag1.getD i 0 + dm2 < m1 ∧ mag2.getD i 0 + dm2 < m2)) := by ring
      _ = 0 := by rw [hzero, mul_zero]
      _ ≤ _ := by
          apply mul_nonneg (mul_nonneg (hw i) (ind_nonneg _)) (ind_nonneg _)

/-- Witness for the amended C6: one sample of weight 1 at detection magnitude
6 with the bright bound 5; moduli 0 ≤ 1. -/
theorem c6_amended_pixel_antitone_witness :
    obsPixelVal [1] [6] [6] [6] 5 100 (-1) 1 1 50 50 ≤
      obsPixelVal [1] [6] [6] [6] 5 100 (-1) 1 0 50 50 := by
  refine c6_amended_pixel_antitone [1] [6] [6] [6] 5 100 (-1) 1 0 1 50 50 ?_ ?_ (by norm_num)
  · intro i
    rcases i with _ | i <;> simp [List.getD]
  · intro i hi
    simp only [List.length_cons, List.length_nil] at hi
    have hi0 : i = 0 := by omega
    subst hi0
    simp [List.getD]
    norm_num

theorem exTrackPlain_ub : exTrackPlain.mass_init_upper_bound = 4 := by
  simp only [Isochrone.mass_init_upper_bound, npMax, exTrackPlain, List.headI, List.foldl]
  norm_num [max_def]

theorem exTrackPlain_not_hbActive : ¬ exTrackPlain.hbActive := by
  intro h
  have := h.1
  simp only [exTrackPlain] at this
  norm_num at this

theorem exTrackPlain_massArray_1000 :
    exTrackPlain.massArray 1000 false = (List.range 1001).map
      (fun i : ℕ => 1 + 3 * ((i : ℝ) / 1000)) := by
  unfold Isochrone.massArray
  rw [show exTrackPlain.workingMassInit false = [1, 4] from rfl]
  have hidx : (List.range ([(1 : ℝ), 4].length)).map (fun i : ℕ => (i : ℝ)) = [0, 1] := by
    rw [show List.range ([(1 : ℝ), 4].length) = [0, 1] from rfl]
    norm_num
  rw [hidx]
  unfold linspace
  rw [if_neg (by norm_num), List.map_map]
  apply List.map_congr_left
  intro i hi
  have hiB : i ≤ 1000 := by
    have := List.mem_range.mp hi
    omega
  simp only [Function.comp_apply]
  have harg : (0 : ℝ) + (i : ℝ) * ((([(1 : ℝ), 4].length : ℕ) : ℝ) - 1 - 0) /
      (((1000 + 1 : ℕ) : ℝ) - 1) = (i : ℝ) / 1000 := by
    norm_num
  rw [harg]
  have hx0 : (0 : ℝ) ≤ (i : ℝ) / 1000 := by positivity
  have hx1 : (i : ℝ) / 1000 ≤ 1 := by
    rw [div_le_one (by norm_num)]
    exact_mod_cast hiB
  rw [interp1d_pair hx0 hx1]
  ring

theorem exPlain_ma_getD {i : ℕ} (hi : i < 1001) :
    (exTrackPlain.massArray 1000 false).getD i 0 = 1 + 3 * ((i : ℝ) / 1000) := by
  rw [exTrackPlain_massArray_1000,
    List.getD_eq_getElem _ _ (by simpa using hi), List.getElem_map, List.getElem_range]

theorem exPlain_mia_getD {i : ℕ} (hi : i < 1000) :
    (exTrackPlain.massInitArray 1000 false).getD i 0 =
      Real.sqrt ((1 + 3 * (((i : ℝ) + 1) / 1000)) * (1 + 3 * ((i : ℝ) / 1000))) := by
  have hlen : i < (List.zipWith (fun a b => Real.sqrt (a * b))
      (exTrackPlain.massArray 1000 false).tail
      (exTrackPlain.massArray 1000 false).dropLast).length := by
    rw [List.length_zipWith, List.length_tail, List.length_dropLast, massArray_length]
    simpa using hi
  unfold Isochrone.massInitArray
  rw [List.getD_eq_getElem _ _ hlen, List.getElem_zipWith, List.getElem_tail,
    List.getElem_dropLast,
    ← List.getD_eq_getElem (exTrackPlain.massArray 1000 false) 0
      (show i + 1 < (exTrackPlain.massArray 1000 false).length by
        rw [massArray_length]; omega),
    ← List.getD_eq_getElem (exTrackPlain.massArray 1000 false) 0
      (show i < (exTrackPlain.massArray 1000 false).length by
        rw [massArray_length]; omega),
    exPlain_ma_getD (show i + 1 < 1001 by omega), exPlain_ma_getD (show i < 1001 by omega)]
  push_cast
  ring_nf

theorem exPlain_mia_bounds {i : ℕ} (hi : i < 1000) :
    1 ≤ (exTrackPlain.massInitArray 1000 false).getD i 0 ∧
      (exTrackPlain.massInitArray 1000 false).getD i 0 ≤ 4 := by
  rw [exPlain_mia_getD hi]
  have hc0 : (0 : ℝ) ≤ (i : ℝ) := Nat.cast_nonneg i
  have hc1 : (i : ℝ) ≤ 999 := by
    have : i ≤ 999 := by omega
    exact_mod_cast this
  constructor
  · rw [Real.one_le_sqrt]
    nlinarith
  · have hub : (1 + 3 * (((i : ℝ) + 1) / 1000)) * (1 + 3 * ((i : ℝ) / 1000)) ≤ 16 := by
      nlinarith
    calc Real.sqrt ((1 + 3 * (((i : ℝ) + 1) / 1000)) * (1 + 3 * ((i : ℝ) / 1000)))
        ≤ Real.sqrt 16 := Real.sqrt_le_sqrt hub
      _ = 4 := by
          rw [show (16 : ℝ) = 4 ^ 2 by norm_num, Real.sqrt_sq (by norm_num : (0 : ℝ) ≤ 4)]

theorem exPlain_dmass_getD {i : ℕ} (hi : i < 1000) :
    (exTrackPlain.dMass 1000 false).getD i 0 = 3 / 1000 := by
  have hlen : i < (exTrackPlain.dMass 1000 false).length := by
    rw [dMass_length]
    exact hi
  unfold Isochrone.dMass at hlen ⊢
  rw [List.getD_eq_getElem _ _ hlen, List.getElem_zipWith, List.getElem_tail,
    List.getElem_dropLast,
    ← List.getD_eq_getElem (exTrackPlain.massArray 1000 false) 0
      (show i + 1 < (exTrackPlain.massArray 1000 false).length by
        rw [massArray_length]; omega),
    ← List.getD_eq_getElem (exTrackPlain.massArray 1000 false) 0
      (show i < (exTrackPlain.massArray 1000 false).length by
        rw [massArray_length]; omega),
    exPlain_ma_getD (show i + 1 < 1001 by omega), exPlain_ma_getD (show i < 1001 by omega)]
  push_cast
  ring

theorem exPlain_pdfmap_getD {i : ℕ} (hi : i < 1000) :
    ((exTrackPlain.massInitArray 1000 false).map exTrackPlain.imf.pdf).getD i 0 = 1 := by
  rw [List.getD_eq_getElem _ _ (by rw [List.length_map, massInitArray_length]; exact hi),
    List.getElem_map]
  rfl

theorem exPlain_pdf_getD {i : ℕ} (hi : i < 1000) :
    (exTrackPlain.massPdfArray 1000 false).getD i 0 = 3 / 1000 := by
  have hlen : i < (exTrackPlain.massPdfArray 1000 false).length := by
    rw [massPdfArray_length]
    exact hi
  unfold Isochrone.massPdfArray at hlen ⊢
  rw [List.getD_eq_getElem _ _ hlen, List.getElem_zipWith,
    ← List.getD_eq_getElem (exTrackPlain.dMass 1000 false) 0
      (show i < (exTrackPlain.dMass 1000 false).length by rw [dMass_length]; exact hi),
    ← List.getD_eq_getElem ((exTrackPlain.massInitArray 1000 false).map
        exTrackPlain.imf.pdf) 0
      (show i < ((exTrackPlain.massInitArray 1000 false).map exTrackPlain.imf.pdf).length by
        rw [List.length_map, massInitArray_length]; exact hi),
    exPlain_dmass_getD hi, exPlain_pdfmap_getD hi]
  norm_num

theorem exPlain_mag1_getD {i : ℕ} (hi : i < 1000) :
    (exTrackPlain.mag1Array 1000 false).getD i 0 =
      (exTrackPlain.massInitArray 1000 false).getD i 0 - 1 := by
  have hlen : i < ((exTrackPlain.massInitArray 1000 false).map
      (interp1d (exTrackPlain.workingMassInit false) (exTrackPlain.workingMag1 false))).length := by
    rw [List.length_map, massInitArray_length]
    exact hi
  unfold Isochrone.mag1Array
  rw [List.getD_eq_getElem _ _ hlen, List.getElem_map,
    ← List.getD_eq_getElem _ 0 (by rw [massInitArray_length]; exact hi),
    show exTrackPlain.workingMassInit false = [1, 4] from rfl,
    show exTrackPlain.workingMag1 false = [0, 3] from rfl]
  have hb := exPlain_mia_bounds hi
  rw [interp1d_pair hb.1 hb.2]
  ring

theorem exPlain_mag2_getD {i : ℕ} (hi : i < 1000) :
    (exTrackPlain.mag2Array 1000 false).getD i 0 =
      (exTrackPlain.massInitArray 1000 false).getD i 0 - 1 := by
  have hlen : i < ((exTrackPlain.massInitArray 1000 false).map
      (interp1d (exTrackPlain.workingMassInit false) (exTrackPlain.workingMag2 false))).length := by
    rw [List.length_map, massInitArray_length]
    exact hi
  unfold Isochrone.mag2Array
  rw [List.getD_eq_getElem _ _ hlen, List.getElem_map,
    ← List.getD_eq_getElem _ 0 (by rw [massInitArray_length]; exact hi),
    show exTrackPlain.workingMassInit false = [1, 4] from rfl,
    show exTrackPlain.workingMag2 false = [0, 3] from rfl]
  have hb := exPlain_mia_bounds hi
  rw [interp1d_pair hb.1 hb.2]
  ring

theorem exPlain_sample_eq :
    exTrackPlain.sample 1000 1 false = .ok
      { mass_init_array := exTrackPlain.massInitArray 1000 false
        mass_pdf_array := (exTrackPlain.massPdfArray 1000 false).map (fun w => w / 3)
        mass_act_array := exTrackPlain.massActArray 1000 false
        mag_1_array := exTrackPlain.mag1Array 1000 false
        mag_2_array := exTrackPlain.mag2Array 1000 false } := by
  unfold Isochrone.sample
  rw [if_neg (by norm_num [show exTrackPlain.workingMassInit false = [1, 4] from rfl]),
    if_pos (by rw [exTrackPlain_ub]; norm_num :
      (0 : ℝ) < 1 ∧ (1 : ℝ) < exTrackPlain.mass_init_upper_bound)]
  unfold Isochrone.sampleRaw
  rw [if_neg exTrackPlain_not_hbActive]
  have hint : exTrackPlain.imf.integrate 1 exTrackPlain.mass_init_upper_bound = 3 := by
    rw [exTrackPlain_ub, show exTrackPlain.imf = exIMF from rfl]
    norm_num [exIMF]
  rw [hint]

theorem exPlain_final_pdf_getD {i : ℕ} (hi : i < 1000) :
    ((exTrackPlain.massPdfArray 1000 false).map (fun w => w / 3)).getD i 0 = 1 / 1000 := by
  rw [List.getD_eq_getElem _ _ (by rw [List.length_map, massPdfArray_length]; exact hi),
    List.getElem_map,
    ← List.getD_eq_getElem (exTrackPlain.massPdfArray 1000 false) 0
      (show i < (exTrackPlain.massPdfArray 1000 false).length by
        rw [massPdfArray_length]; exact hi),
    exPlain_pdf_getD hi]
  norm_num

theorem exPlain_mag1_bounds {i : ℕ} (hi : i < 1000) :
    0 ≤ (exTrackPlain.mag1Array 1000 false).getD i 0 ∧
      (exTrackPlain.mag1Array 1000 false).getD i 0 ≤ 3 := by
  rw [exPlain_mag1_getD hi]
  have hb := exPlain_mia_bounds hi
  constructor <;> linarith [hb.1, hb.2]

/-- C6 counterexample: with the global magnitude window starting at 5, every
absolute magnitude of exTrackPlain (all in [0, 3]) is too bright at distance
modulus 0, so the interior pixel sees weight 0; at the larger modulus 10 every
sample enters the window and clears the deep detection limit, so the same
pixel sees weight 1 — the per-pixel value increased as distance modulus
increased. -/
theorem c6_counterexample_value_increases_with_dm :
    exTrackPlain.observableFraction exMask 0 1 = .ok [0] ∧
      exTrackPlain.observableFraction exMask 10 1 = .ok [1] ∧
      (0 : ℝ) ≤ 10 ∧ ¬ ((1 : ℝ) ≤ 0) := by
  have hobs : ∀ dm : ℝ, exTrackPlain.observableFraction exMask dm 1 = .ok
      [obsPixelVal ((exTrackPlain.massPdfArray 1000 false).map (fun w => w / 3))
        (exTrackPlain.mag1Array 1000 false) (exTrackPlain.mag1Array 1000 false)
        (exTrackPlain.mag2Array 1000 false) 5 100 (-1) 1 dm 1000 1000] := by
    intro dm
    unfold Isochrone.observableFraction
    rw [exPlain_sample_eq]
    rfl
  have hlenP : ((exTrackPlain.massPdfArray 1000 false).map (fun w => w / 3)).length = 1000 := by
    rw [List.length_map, massPdfArray_length]
  refine ⟨?_, ?_, by norm_num, by norm_num⟩
  · rw [hobs 0]
    congr 1
    rw [show ([obsPixelVal ((exTrackPlain.massPdfArray 1000 false).map (fun w => w / 3))
        (exTrackPlain.mag1Array 1000 false) (exTrackPlain.mag1Array 1000 false)
        (exTrackPlain.mag2Array 1000 false) 5 100 (-1) 1 0 1000 1000] = [(0 : ℝ)]) =
      (obsPixelVal ((exTrackPlain.massPdfArray 1000 false).map (fun w => w / 3))
        (exTrackPlain.mag1Array 1000 false) (exTrackPlain.mag1Array 1000 false)
        (exTrackPlain.mag2Array 1000 false) 5 100 (-1) 1 0 1000 1000 = (0 : ℝ)) from by
        simp]
    unfold obsPixelVal
    apply Finset.sum_eq_zero
    intro i hiF
    have hi : i < 1000 := by
      have := Finset.mem_range.mp hiF
      rwa [hlenP] at this
    have hb := exPlain_mag1_bounds hi
    have hneg : ¬ ((exTrackPlain.mag1Array 1000 false).getD i 0 + 0 > 5 ∧
        (exTrackPlain.mag1Array 1000 false).getD i 0 + 0 < 100 ∧
        (exTrackPlain.mag1Array 1000 false).getD i 0 -
          (exTrackPlain.mag2Array 1000 false).getD i 0 > -1 ∧
        (exTrackPlain.mag1Array 1000 false).getD i 0 -
          (exTrackPlain.mag2Array 1000 false).getD i 0 < 1) := by
      intro hcon
      have h5 := hcon.1
      linarith [hb.2]
    rw [ind_neg hneg, mul_zero, zero_mul]
  · rw [hobs 10]
    congr 1
    rw [show ([obsPixelVal ((exTrackPlain.massPdfArray 1000 false).map (fun w => w / 3))
        (exTrackPlain.mag1Array 1000 false) (exTrackPlain.mag1Array 1000 false)
        (exTrackPlain.mag2Array 1000 false) 5 100 (-1) 1 10 1000 1000] = [(1 : ℝ)]) =
      (obsPixelVal ((exTrackPlain.massPdfArray 1000 false).map (fun w => w / 3))
        (exTrackPlain.mag1Array 1000 false) (exTrackPlain.mag1Array 1000 false)
        (exTrackPlain.mag2Array 1000 false) 5 100 (-1) 1 10 1000 1000 = (1 : ℝ)) from by
        simp]
    unfold obsPixelVal
    have hterm : ∀ i ∈ Finset.range (((exTrackPlain.massPdfArray 1000 false).map
        (fun w => w / 3)).length),
        ((exTrackPlain.massPdfArray 1000 false).map (fun w => w / 3)).getD i 0 *
          ind ((exTrackPlain.mag1Array 1000 false).getD i 0 + 10 > 5 ∧
            (exTrackPlain.mag1Array 1000 false).getD i 0 + 10 < 100 ∧
            (exTrackPlain.mag1Array 1000 false).getD i 0 -
              (exTrackPlain.mag2Array 1000 false).getD i 0 > -1 ∧
            (exTrackPlain.mag1Array 1000 false).getD i 0 -
              (exTrackPlain.mag2Array 1000 false).getD i 0 < 1) *
          ind ((exTrackPlain.mag1Array 1000 false).getD i 0 + 10 < 1000 ∧
            (exTrackPlain.mag2Array 1000 false).getD i 0 + 10 < 1000) = 1 / 1000 := by
      intro i hiF
      have hi : i < 1000 := by
        have := Finset.mem_range.mp hiF
        rwa [hlenP] at this
      have hb := exPlain_mag1_bounds hi
      have hcolor : (exTrackPlain.mag1Array 1000 false).getD i 0 -
          (exTrackPlain.mag2Array 1000 false).getD i 0 = 0 := by
        rw [exPlain_mag1_getD hi, exPlain_mag2_getD hi]
        ring
      have hm2b : (exTrackPlain.mag2Array 1000 false).getD i 0 + 10 < 1000 := by
        rw [exPlain_mag2_getD hi]
        have hb2 := exPlain_mia_bounds hi
        linarith [hb2.2]
      rw [ind_pos ⟨by linarith [hb.1], by linarith [hb.2],
          by rw [hcolor]; norm_num, by rw [hcolor]; norm_num⟩,
        ind_pos ⟨by linarith [hb.2], hm2b⟩, exPlain_final_pdf_getD hi]
      norm_num
    rw [Finset.sum_congr rfl hterm, Finset.sum_const, Finset.card_range, hlenP,
      nsmul_eq_mul]
    norm_num

end UgaliIMF
